import Mathlib

/-!
Verification of the precedence-climbing expression evaluator.

This file gives a shallow embedding, in Lean 4, of the lexer and
precedence-climbing parser/evaluator of `src/main.cpp`, and proves
properties of the embedding.

Modelling conventions:
* the input line (`std::string`) is a `List Char`; a read of the C string
  at index `length` yields the terminating `'\x00'`, which `charAt`
  reproduces; reads strictly past the terminator are out of bounds and the
  error-location renderer models them by returning `none`;
* `double` values are modelled by `EVal`, exact rationals extended with
  the IEEE special values `+inf`, `-inf`, `nan`.  The arithmetic on
  specials follows the IEEE-754 conventions.  Rounding of inexact binary64
  results is not modelled: every operation exercised by a theorem below is
  exact in binary64;
* recursion in the parser is fuelled; `parse` supplies fuel that is proved
  sufficient for every input (`parse_not_fuelout`).
-/

namespace PC

/-- `Associativity` of `src/main.cpp`. -/
inductive Associativity where
  | LEFT
  | RIGHT
deriving DecidableEq, Repr

/-- `OperatorPrecedence` of `src/main.cpp`. -/
structure OperatorPrecedence where
  prec : Nat
  assoc : Associativity
deriving DecidableEq, Repr

/-- `TokenType` of `src/main.cpp`. -/
inductive TokenType where
  | ADD
  | SUBTRACT
  | MULTIPLY
  | DIVIDE
  | POWER
  | NUMBER
  | LEFT_PAREN
  | RIGHT_PAREN
  | ILLEGAL_CHARACTER
  | END_OF_FILE
deriving DecidableEq, Repr

/-- The numeric value of each `TokenType` enumerator (`ADD = 0`, …,
`END_OF_FILE = 9`), used by the parser's range checks. -/
def tokNum : TokenType → Nat
  | .ADD => 0
  | .SUBTRACT => 1
  | .MULTIPLY => 2
  | .DIVIDE => 3
  | .POWER => 4
  | .NUMBER => 5
  | .LEFT_PAREN => 6
  | .RIGHT_PAREN => 7
  | .ILLEGAL_CHARACTER => 8
  | .END_OF_FILE => 9

/-- The `OperatorMap` array of `src/main.cpp`.  The array has entries only
for indices 0–4; the final catch-all row models an out-of-range index and
is never consulted: `compute_loop` reads the map only after checking
`tokNum t ≤ 4`. -/
def OperatorMap : TokenType → OperatorPrecedence
  | .ADD => ⟨1, .LEFT⟩
  | .SUBTRACT => ⟨1, .LEFT⟩
  | .MULTIPLY => ⟨2, .LEFT⟩
  | .DIVIDE => ⟨2, .LEFT⟩
  | .POWER => ⟨3, .RIGHT⟩
  | _ => ⟨0, .LEFT⟩

/-- `Token` of `src/main.cpp`.  The borrowed `string_view` is modelled by
the start offset `pos` of the view in the source line together with the
viewed characters `text`. -/
structure Token where
  pos : Nat
  text : List Char
  type : TokenType
deriving DecidableEq, Repr

/-! ## The value model of `double` -/

/-- Model of a `double` value: an exact rational, or one of the IEEE
special values.  A single zero stands for both IEEE zeroes. -/
inductive EVal where
  | finite (q : ℚ)
  | pinf
  | ninf
  | nan
deriving DecidableEq, Repr

/-! ### Kernel-computable exact rational operations

Core `Rat` arithmetic normalizes fractions with `Nat.gcd`, which is
defined by well-founded recursion and does not reduce in the kernel, so
`decide` cannot evaluate it.  The operations below compute the same
rationals — the `q…_eq` bridge lemmas prove them equal to the standard
`ℚ` operations — through a structurally recursive gcd, so that every
concrete run of the evaluator can be checked by `decide`. -/

/-- Euclid's algorithm with explicit fuel (structurally recursive). -/
def myGcdAux : Nat → Nat → Nat → Nat
  | 0, _, n => n
  | f + 1, m, n => if m = 0 then n else myGcdAux f (n % m) m

/-- `Nat.gcd`, kernel-computably (see `myGcd_gcd`). -/
def myGcd (m n : Nat) : Nat := myGcdAux (m + 1) m n

theorem myGcdAux_eq : ∀ (f m n : Nat), m < f → myGcdAux f m n = Nat.gcd m n
  | 0, _, _, h => absurd h (Nat.not_lt_zero _)
  | f + 1, m, n, h => by
    rw [myGcdAux]
    by_cases hm : m = 0
    · simp [hm]
    · have hlt : n % m < m := Nat.mod_lt n (Nat.pos_of_ne_zero hm)
      rw [if_neg hm, myGcdAux_eq f (n % m) m (by omega)]
      exact (Nat.gcd_rec m n).symm

theorem myGcd_gcd (m n : Nat) : myGcd m n = Nat.gcd m n :=
  myGcdAux_eq _ _ _ (Nat.lt_succ_self m)

/-- `Rat.normalize`, kernel-computably: build the reduced fraction
`num / den` directly. -/
def mkQ (num : Int) (den : Nat) (den_nz : den ≠ 0) : ℚ :=
  Rat.maybeNormalize num den (myGcd num.natAbs den)
    (Rat.normalize.den_nz den_nz (myGcd_gcd ..))
    (Rat.normalize.reduced den_nz (myGcd_gcd ..))

theorem mkQ_eq_mkRat (num : Int) (den : Nat) (den_nz : den ≠ 0) :
    mkQ num den den_nz = mkRat num den := by
  have hn : (myGcd num.natAbs den : Int) ∣ num := by
    rw [myGcd_gcd]
    exact Int.ofNat_dvd_left.2 (Nat.gcd_dvd_left ..)
  have hd : myGcd num.natAbs den ∣ den := by
    rw [myGcd_gcd]
    exact Nat.gcd_dvd_right ..
  rw [mkQ, Rat.maybeNormalize_eq_normalize _ _ hn hd, Rat.normalize_eq_mkRat]

/-- `mkRat`, kernel-computably. -/
def qMkRat (num : Int) (den : Nat) : ℚ :=
  if dz : den = 0 then 0 else mkQ num den dz

theorem qMkRat_eq (num : Int) (den : Nat) : qMkRat num den = mkRat num den := by
  rw [qMkRat, Rat.mkRat_def]
  split
  · rfl
  · rw [mkQ_eq_mkRat, Rat.normalize_eq_mkRat]

/-- `Rat.divInt`, kernel-computably. -/
def qDivInt : Int → Int → ℚ
  | n, .ofNat d => qMkRat n d
  | n, .negSucc d => mkQ (-n) (d + 1) (Nat.succ_ne_zero d)

theorem qDivInt_eq (n d : Int) : qDivInt n d = Rat.divInt n d := by
  cases d with
  | ofNat d =>
    show qMkRat n d = Rat.divInt n (.ofNat d)
    rw [qMkRat_eq]
    rfl
  | negSucc d =>
    show mkQ (-n) (d + 1) (Nat.succ_ne_zero d) = Rat.divInt n (.negSucc d)
    rw [mkQ_eq_mkRat, ← Rat.normalize_eq_mkRat (Nat.succ_ne_zero d)]
    rfl

/-- Rational addition, kernel-computably. -/
def qAdd (a b : ℚ) : ℚ :=
  mkQ (a.num * b.den + b.num * a.den) (a.den * b.den)
    (Nat.mul_ne_zero a.den_nz b.den_nz)

theorem qAdd_eq (a b : ℚ) : qAdd a b = a + b := by
  rw [qAdd, mkQ_eq_mkRat, Rat.add_def']

/-- Rational subtraction, kernel-computably. -/
def qSub (a b : ℚ) : ℚ :=
  mkQ (a.num * b.den - b.num * a.den) (a.den * b.den)
    (Nat.mul_ne_zero a.den_nz b.den_nz)

theorem qSub_eq (a b : ℚ) : qSub a b = a - b := by
  rw [qSub, mkQ_eq_mkRat, Rat.sub_def']

/-- Rational multiplication, kernel-computably. -/
def qMul (a b : ℚ) : ℚ :=
  mkQ (a.num * b.num) (a.den * b.den) (Nat.mul_ne_zero a.den_nz b.den_nz)

theorem qMul_eq (a b : ℚ) : qMul a b = a * b := by
  rw [qMul, mkQ_eq_mkRat, Rat.mul_def, Rat.normalize_eq_mkRat]

/-- Rational division, kernel-computably. -/
def qDiv (a b : ℚ) : ℚ :=
  qDivInt (a.num * b.den) (a.den * b.num)

theorem qDiv_eq (a b : ℚ) : qDiv a b = a / b := by
  rw [qDiv, qDivInt_eq, ← Rat.div_def']

/-- Rational inverse, kernel-computably. -/
def qInv (a : ℚ) : ℚ :=
  qDivInt a.den a.num

theorem qInv_eq (a : ℚ) : qInv a = a⁻¹ := by
  rw [qInv, qDivInt_eq, ← Rat.inv_def']

/-- Rational natural power, kernel-computably. -/
def qPow (a : ℚ) : Nat → ℚ
  | 0 => 1
  | n + 1 => qMul (qPow a n) a

theorem qPow_eq (a : ℚ) (n : Nat) : qPow a n = a ^ n := by
  induction n with
  | zero => rfl
  | succ n ih => rw [qPow, qMul_eq, ih, pow_succ]

/-- IEEE addition on modelled doubles. -/
def evAdd : EVal → EVal → EVal
  | .nan, _ => .nan
  | _, .nan => .nan
  | .finite a, .finite b => .finite (qAdd a b)
  | .pinf, .ninf => .nan
  | .ninf, .pinf => .nan
  | .pinf, _ => .pinf
  | _, .pinf => .pinf
  | .ninf, _ => .ninf
  | _, .ninf => .ninf

/-- IEEE subtraction on modelled doubles. -/
def evSub : EVal → EVal → EVal
  | .nan, _ => .nan
  | _, .nan => .nan
  | .finite a, .finite b => .finite (qSub a b)
  | .pinf, .pinf => .nan
  | .ninf, .ninf => .nan
  | .pinf, _ => .pinf
  | _, .pinf => .ninf
  | .ninf, _ => .ninf
  | _, .ninf => .pinf

/-- IEEE multiplication on modelled doubles. -/
def evMul : EVal → EVal → EVal
  | .nan, _ => .nan
  | _, .nan => .nan
  | .finite a, .finite b => .finite (qMul a b)
  | .pinf, .pinf => .pinf
  | .pinf, .ninf => .ninf
  | .ninf, .pinf => .ninf
  | .ninf, .ninf => .pinf
  | .pinf, .finite b => if b = 0 then .nan else if 0 < b then .pinf else .ninf
  | .finite a, .pinf => if a = 0 then .nan else if 0 < a then .pinf else .ninf
  | .ninf, .finite b => if b = 0 then .nan else if 0 < b then .ninf else .pinf
  | .finite a, .ninf => if a = 0 then .nan else if 0 < a then .ninf else .pinf

/-- IEEE division on modelled doubles.  In particular a division of a
nonzero finite value by zero yields a signed infinity and `0 / 0` yields
`nan`; no error is possible. -/
def evDiv : EVal → EVal → EVal
  | .nan, _ => .nan
  | _, .nan => .nan
  | .finite a, .finite b =>
      if b = 0 then (if a = 0 then .nan else if 0 < a then .pinf else .ninf)
      else .finite (qDiv a b)
  | .pinf, .pinf => .nan
  | .pinf, .ninf => .nan
  | .ninf, .pinf => .nan
  | .ninf, .ninf => .nan
  | .pinf, .finite b => if 0 ≤ b then .pinf else .ninf
  | .ninf, .finite b => if 0 ≤ b then .ninf else .pinf
  | .finite _, .pinf => .finite 0
  | .finite _, .ninf => .finite 0

/-- `pow` (`<cmath>`) on modelled doubles, for the cases arising in this
program: integral exponents are computed exactly; a fractional exponent of
a negative base is `nan` (IEEE); a fractional exponent of a nonnegative
base is irrational in general and lies outside the exact model, so it is
collapsed to `nan` — no theorem below exercises that branch. -/
def evPow : EVal → EVal → EVal
  | .nan, _ => .nan
  | _, .nan => .nan
  | .finite a, .finite b =>
      if b.den = 1 then
        if 0 ≤ b.num then .finite (qPow a b.num.toNat)
        else if a = 0 then .pinf
        else .finite (qInv (qPow a (-b.num).toNat))
      else .nan
  | .finite a, .pinf =>
      if a = 1 ∨ a = -1 then .finite 1 else if -1 < a ∧ a < 1 then .finite 0 else .pinf
  | .finite a, .ninf =>
      if a = 1 ∨ a = -1 then .finite 1 else if -1 < a ∧ a < 1 then .pinf else .finite 0
  | .pinf, .finite b => if b = 0 then .finite 1 else if 0 < b then .pinf else .finite 0
  | .ninf, .finite b => if b = 0 then .finite 1 else if 0 < b then .pinf else .finite 0
  | .pinf, .pinf => .pinf
  | .pinf, .ninf => .finite 0
  | .ninf, .pinf => .pinf
  | .ninf, .ninf => .finite 0

/-! ## Lexer -/

/-- Reading a character of the C string backing the input line: index
`s.length` is the terminating `'\x00'`.  (All lexer reads are at indices
`≤ s.length`.) -/
def charAt (s : List Char) (pos : Nat) : Char :=
  s.getD pos '\x00'

/-- `Lexer::read_next`: the cursor advances unless it is at the end. -/
def readNextPos (s : List Char) (pos : Nat) : Nat :=
  if pos < s.length then pos + 1 else pos

/-- `Lexer::peek_next`. -/
def peek_next (s : List Char) (pos : Nat) : Char :=
  if pos < s.length then charAt s (pos + 1) else '\x00'

/-- The whitespace set of `Lexer::skip_whitespace`. -/
def isWs (c : Char) : Bool :=
  c = '\n' ∨ c = '\t' ∨ c = '\r' ∨ c = ' '

/-- Loop of `Lexer::skip_whitespace`, structurally recursive over the
characters remaining after the cursor. -/
def skipWsAux : List Char → Nat → Nat
  | [], pos => pos
  | c :: rest, pos => if isWs c then skipWsAux rest (pos + 1) else pos

/-- `Lexer::skip_whitespace`, returning the new cursor. -/
def skip_whitespace (s : List Char) (pos : Nat) : Nat :=
  skipWsAux (s.drop pos) pos

/-- Digit-scanning loop of `Lexer::number`, structurally recursive over
the characters remaining after the cursor. -/
def scanDigitsAux : List Char → Nat → Nat
  | [], pos => pos
  | c :: rest, pos => if c.isDigit then scanDigitsAux rest (pos + 1) else pos

/-- The cursor after the digit-scanning loop of `Lexer::number`. -/
def scanDigits (s : List Char) (pos : Nat) : Nat :=
  scanDigitsAux (s.drop pos) pos

/-- The view `string_view(&source[a], b - a)`. -/
def slice (s : List Char) (a b : Nat) : List Char :=
  (s.drop a).take (b - a)

/-- `Lexer::number`: called with a digit under the cursor; consumes the
greedy digit run. -/
def number (s : List Char) (pos : Nat) : Token × Nat :=
  let stop := scanDigits s (readNextPos s pos)
  (⟨pos, slice s pos stop, .NUMBER⟩, stop)

/-- `Lexer::next_token`. -/
def next_token (s : List Char) (pos0 : Nat) : Token × Nat :=
  let pos := skip_whitespace s pos0
  let c := charAt s pos
  if c.isDigit then
    number s pos
  else if c = '+' then (⟨pos, [c], .ADD⟩, readNextPos s pos)
  else if c = '-' then (⟨pos, [c], .SUBTRACT⟩, readNextPos s pos)
  else if c = '*' then
    if peek_next s pos = '*' then
      (⟨pos, slice s pos (pos + 2), .POWER⟩, readNextPos s (readNextPos s pos))
    else
      (⟨pos, [c], .MULTIPLY⟩, readNextPos s pos)
  else if c = '/' then (⟨pos, [c], .DIVIDE⟩, readNextPos s pos)
  else if c = '(' then (⟨pos, [c], .LEFT_PAREN⟩, readNextPos s pos)
  else if c = ')' then (⟨pos, [c], .RIGHT_PAREN⟩, readNextPos s pos)
  else if c = '\x00' then (⟨pos, [c], .END_OF_FILE⟩, readNextPos s pos)
  else (⟨pos, [c], .ILLEGAL_CHARACTER⟩, readNextPos s pos)

/-! ## Parser / evaluator -/

/-- The error kinds of §7 of the specification, one per `report_error`
message of `src/main.cpp`. -/
inductive ErrKind where
  | UnexpectedEndOfExpression
  | UnexpectedToken
  | UnmatchedParen
  | UnknownOperator
deriving DecidableEq, Repr

/-- Parser state: the lexer cursor and the single lookahead token. -/
structure PState where
  pos : Nat
  tok : Token
deriving DecidableEq, Repr

/-- Result of a parser computation: a value together with the state after
it, a located error (the token is the lookahead at the point of
`report_error`), or fuel exhaustion (never reached from `parse`, see
`parse_not_fuelout`). -/
inductive PResult where
  | ok (v : EVal) (st : PState)
  | err (e : ErrKind) (tok : Token)
  | fuelout
deriving DecidableEq, Repr

/-- `Parser::next_token`: pull the next token from the lexer into the
lookahead. -/
def advance (s : List Char) (st : PState) : PState :=
  let r := next_token s st.pos
  ⟨r.2, r.1⟩

/-- The numeric value of a digit run. -/
def digitsToNat (cs : List Char) : Nat :=
  cs.foldl (fun a c => 10 * a + (c.toNat - 48)) 0

/-- `std::strtod` applied to the text of a `NUMBER` token.  (`strtod` in
the source reads from the token's start pointer to the end of the digit
run; it could read further only through a `.` or an exponent letter, and
such a character lexes as `ILLEGAL_CHARACTER`, which makes the parser
raise an error before any value could be observed, so the digit-run value
is faithful for every observable outcome.) -/
def strtod (cs : List Char) : EVal :=
  .finite (digitsToNat cs : ℚ)

/-- `Parser::compute_op`: `none` models the `report_error("Unknown
operator")` default branch. -/
def compute_op (t : Token) (lhs rhs : EVal) : Option EVal :=
  match t.type with
  | .ADD => some (evAdd lhs rhs)
  | .SUBTRACT => some (evSub lhs rhs)
  | .MULTIPLY => some (evMul lhs rhs)
  | .DIVIDE => some (evDiv lhs rhs)
  | .POWER => some (evPow lhs rhs)
  | _ => none

mutual

/-- `Parser::compute_atom`. -/
def compute_atom (s : List Char) : Nat → PState → PResult
  | 0, _ => .fuelout
  | fuel + 1, st0 =>
    let st := advance s st0
    if st.tok.type = .LEFT_PAREN then
      match compute_expr s fuel 1 st with
      | .ok v st2 =>
        if st2.tok.type ≠ .RIGHT_PAREN then .err .UnmatchedParen st2.tok
        else .ok v (advance s st2)
      | r => r
    else if st.tok.type = .END_OF_FILE then .err .UnexpectedEndOfExpression st.tok
    else if st.tok.type ≠ .NUMBER then .err .UnexpectedToken st.tok
    else .ok (strtod st.tok.text) (advance s st)

/-- `Parser::compute_expr`: one atom, then the climbing loop. -/
def compute_expr (s : List Char) : Nat → Nat → PState → PResult
  | 0, _, _ => .fuelout
  | fuel + 1, minPrec, st =>
    match compute_atom s fuel st with
    | .ok lhs st1 => compute_loop s fuel minPrec lhs st1
    | r => r

/-- The `while (true)` loop of `Parser::compute_expr`. -/
def compute_loop (s : List Char) : Nat → Nat → EVal → PState → PResult
  | 0, _, _, _ => .fuelout
  | fuel + 1, minPrec, lhs, st =>
    let cur := st.tok
    if (tokNum cur.type > tokNum .POWER ∨ tokNum cur.type < tokNum .ADD)
        ∨ (OperatorMap cur.type).prec < minPrec then
      if cur.type = .ILLEGAL_CHARACTER then .err .UnknownOperator cur
      else .ok lhs st
    else
      let op_prec := OperatorMap cur.type
      let next_min := if op_prec.assoc = .LEFT then op_prec.prec + 1 else op_prec.prec
      match compute_expr s fuel next_min st with
      | .ok rhs st2 =>
        match compute_op cur lhs rhs with
        | some v => compute_loop s fuel minPrec v st2
        | none => .err .UnknownOperator st2.tok
      | r => r

end

/-! ## Error-location rendering -/

/-- A read of the C string backing the input line at integer index `i`:
indices `0 ≤ i ≤ length` are in bounds (index `length` reads the
terminator); anything else is out of bounds (`none`). -/
def cRead (s : List Char) (i : Int) : Option Char :=
  if 0 ≤ i ∧ i ≤ (s.length : Int) then some (charAt s i.toNat) else none

/-- The backward scan of `show_error_location` for the start of the line
(`while (*start_of_line != '\n' && start_of_line > source_start)
start_of_line--`).  Its reads start at the token position and stay
between it and `0`, hence in bounds. -/
def findSol (s : List Char) : Nat → Nat
  | 0 => 0
  | p + 1 => if charAt s (p + 1) = '\n' then p + 1 else findSol s p

/-- The forward scan of `show_error_location` for the end of the line
(`while (*end_of_line != '\n' && *end_of_line != '\0') end_of_line++`),
with fuel (`findEol` supplies enough); a read past the terminator is out
of bounds (`none`). -/
def findEolAux (s : List Char) : Nat → Nat → Option Nat
  | 0, _ => none
  | f + 1, p =>
    if p ≤ s.length then
      if charAt s p = '\n' ∨ charAt s p = '\x00' then some p
      else findEolAux s f (p + 1)
    else none

/-- The end-of-line scan, starting at position `p`. -/
def findEol (s : List Char) (p : Nat) : Option Nat :=
  findEolAux s (s.length + 2) p

/-- `size_t` subtraction wraps modulo `2 ^ 64` (the literal below). -/
def wrap64 (i : Int) : Nat :=
  (i % 18446744073709551616).toNat

/-- `Parser::show_error_location`.  `tokPos` is the byte offset of the
current lookahead token (`token.string.data() - source_start`).  Returns
the rendered location text — the source line, a newline, spaces, and the
caret — or `none` if the C code would read outside the bounds of the
line's buffer. -/
def show_error_location (s : List Char) (tokPos : Nat) : Option (List Char) :=
  let sol0 := findSol s tokPos
  let sol := if charAt s sol0 = '\x00' then sol0 + 1 else sol0
  match findEol s sol with
  | none => none
  | some eol0 =>
    match cRead s ((eol0 : Int) - 1) with
    | none => none
    | some c =>
      let eol := if c = '\r' then eol0 - 1 else eol0
      let source_line_len := wrap64 ((eol : Int) - (sol : Int))
      let space_before_caret := wrap64 ((tokPos : Int) - (sol : Int))
      if source_line_len ≤ s.length then
        some (s.take source_line_len ++
          '\n' :: (List.replicate space_before_caret ' ' ++ ['^']))
      else none

/-- The message string of each `report_error` call site. -/
def errMessage : ErrKind → List Char
  | .UnexpectedEndOfExpression => "Unexpected end of expression: \n".toList
  | .UnexpectedToken => "Unexpected character: \n".toList
  | .UnmatchedParen => "Unmatched '(':\n".toList
  | .UnknownOperator => "Unknown operator:\n".toList

/-- `Parser::report_error`: the text of the thrown `ParserException` —
the message, directly followed by the rendered location. -/
def report_error (s : List Char) (e : ErrKind) (tok : Token) : Option (List Char) :=
  (errMessage e ++ ·) <$> show_error_location s tok.pos

/-- Fuel that `parse` hands to `compute_expr`; `parse_fuel_sufficient`
proves it large enough for every input. -/
def parseFuel (s : List Char) : Nat :=
  4 * (s.length + 1) + 1

/-- The lookahead member of a freshly constructed `Parser` is
uninitialized and is overwritten before first being read; the model gives
it an arbitrary fixed value. -/
def initState : PState :=
  ⟨0, ⟨0, [], .END_OF_FILE⟩⟩

/-- `Parser::parse` on a whole input line. -/
def parse (s : List Char) : PResult :=
  compute_expr s (parseFuel s) 1 initState

/-- The full error text produced by a failing `parse` on the line `s`, as
caught and printed by the shell; `none` if parsing succeeds (or if the
error rendering would read out of bounds). -/
def errorText (s : List Char) : Option (List Char) :=
  match parse s with
  | .err e tok => report_error s e tok
  | _ => none

/-! ## Lexer bounds and progress -/

theorem skipWsAux_ge (l : List Char) (pos : Nat) : pos ≤ skipWsAux l pos := by
  induction l generalizing pos with
  | nil => simp [skipWsAux]
  | cons c rest ih =>
    rw [skipWsAux]
    split
    · exact le_trans (Nat.le_succ pos) (ih (pos + 1))
    · exact le_refl pos

theorem skipWsAux_le (l : List Char) (pos : Nat) :
    skipWsAux l pos ≤ pos + l.length := by
  induction l generalizing pos with
  | nil => simp [skipWsAux]
  | cons c rest ih =>
    rw [skipWsAux]
    split
    · exact le_trans (ih (pos + 1)) (by simp; omega)
    · exact Nat.le_add_right pos _

theorem skip_whitespace_ge (s : List Char) (pos : Nat) :
    pos ≤ skip_whitespace s pos :=
  skipWsAux_ge _ _

theorem skip_whitespace_le (s : List Char) (pos : Nat) (hp : pos ≤ s.length) :
    skip_whitespace s pos ≤ s.length := by
  have h := skipWsAux_le (s.drop pos) pos
  rw [List.length_drop] at h
  calc skip_whitespace s pos ≤ pos + (s.length - pos) := h
  _ = s.length := by omega

theorem scanDigitsAux_ge (l : List Char) (pos : Nat) : pos ≤ scanDigitsAux l pos := by
  induction l generalizing pos with
  | nil => simp [scanDigitsAux]
  | cons c rest ih =>
    rw [scanDigitsAux]
    split
    · exact le_trans (Nat.le_succ pos) (ih (pos + 1))
    · exact le_refl pos

theorem scanDigitsAux_le (l : List Char) (pos : Nat) :
    scanDigitsAux l pos ≤ pos + l.length := by
  induction l generalizing pos with
  | nil => simp [scanDigitsAux]
  | cons c rest ih =>
    rw [scanDigitsAux]
    split
    · exact le_trans (ih (pos + 1)) (by simp; omega)
    · exact Nat.le_add_right pos _

theorem scanDigits_ge (s : List Char) (pos : Nat) : pos ≤ scanDigits s pos :=
  scanDigitsAux_ge _ _

theorem scanDigits_le (s : List Char) (pos : Nat) (hp : pos ≤ s.length) :
    scanDigits s pos ≤ s.length := by
  have h := scanDigitsAux_le (s.drop pos) pos
  rw [List.length_drop] at h
  calc scanDigits s pos ≤ pos + (s.length - pos) := h
  _ = s.length := by omega

/-- A position holding a character other than the terminator is strictly
inside the line. -/
theorem charAt_ne_nul_lt (s : List Char) (pos : Nat) (h : charAt s pos ≠ '\x00') :
    pos < s.length := by
  by_contra hc
  exact h (List.getD_eq_default _ _ (Nat.le_of_not_lt hc))

theorem readNextPos_le (s : List Char) (pos : Nat) (hp : pos ≤ s.length) :
    readNextPos s pos ≤ s.length := by
  rw [readNextPos]
  split <;> omega

theorem readNextPos_ge (s : List Char) (pos : Nat) : pos ≤ readNextPos s pos := by
  rw [readNextPos]
  split <;> omega

theorem readNextPos_lt (s : List Char) (pos : Nat) (hp : pos < s.length) :
    readNextPos s pos = pos + 1 := by
  rw [readNextPos, if_pos hp]

theorem next_token_pos_ge (s : List Char) (pos : Nat) :
    pos ≤ (next_token s pos).2 := by
  have hge := skip_whitespace_ge s pos
  have r1 := readNextPos_ge s (skip_whitespace s pos)
  have r2 := readNextPos_ge s (readNextPos s (skip_whitespace s pos))
  have d1 := scanDigits_ge s (readNextPos s (skip_whitespace s pos))
  have d2 := scanDigits_ge s (skip_whitespace s pos + 1)
  have d3 := scanDigits_ge s (skip_whitespace s pos)
  simp only [next_token, number]
  split_ifs <;> dsimp only <;> omega

theorem next_token_pos_le (s : List Char) (pos : Nat) (hp : pos ≤ s.length) :
    (next_token s pos).2 ≤ s.length := by
  have hle := skip_whitespace_le s pos hp
  have r1 := readNextPos_le s (skip_whitespace s pos) hle
  have r2 := readNextPos_le s (readNextPos s (skip_whitespace s pos)) r1
  have d1 := scanDigits_le s (readNextPos s (skip_whitespace s pos)) r1
  have r0 := readNextPos_ge s (skip_whitespace s pos)
  have d0 := scanDigits_ge s (readNextPos s (skip_whitespace s pos))
  simp only [next_token, number]
  split_ifs <;> dsimp only <;> omega

theorem next_token_tok_le (s : List Char) (pos : Nat) (hp : pos ≤ s.length) :
    (next_token s pos).1.pos ≤ s.length := by
  have hle := skip_whitespace_le s pos hp
  simp only [next_token, number]
  split_ifs <;> dsimp only <;> omega

/-- Any token other than `END_OF_FILE` advances the cursor by at least
one byte. -/
theorem next_token_progress (s : List Char) (pos : Nat) :
    (next_token s pos).1.type ≠ .END_OF_FILE → pos + 1 ≤ (next_token s pos).2 := by
  have hge := skip_whitespace_ge s pos
  simp only [next_token, number]
  split_ifs with h1 h2 h3 h4 h5 h6 h7 h8 h9 <;> intro h <;> dsimp only at h ⊢
  · have hlt : skip_whitespace s pos < s.length :=
      charAt_ne_nul_lt s _ (fun h0 => absurd (h0 ▸ h1) (by decide))
    have := scanDigits_ge s (readNextPos s (skip_whitespace s pos))
    rw [readNextPos_lt s _ hlt] at this ⊢
    omega
  · have hlt : skip_whitespace s pos < s.length :=
      charAt_ne_nul_lt s _ (fun h0 => absurd (h0 ▸ h2) (by decide))
    rw [readNextPos_lt s _ hlt]
    omega
  · have hlt : skip_whitespace s pos < s.length :=
      charAt_ne_nul_lt s _ (fun h0 => absurd (h0 ▸ h3) (by decide))
    rw [readNextPos_lt s _ hlt]
    omega
  · have hlt : skip_whitespace s pos < s.length :=
      charAt_ne_nul_lt s _ (fun h0 => absurd (h0 ▸ h4) (by decide))
    have := readNextPos_ge s (readNextPos s (skip_whitespace s pos))
    rw [readNextPos_lt s _ hlt] at this ⊢
    omega
  · have hlt : skip_whitespace s pos < s.length :=
      charAt_ne_nul_lt s _ (fun h0 => absurd (h0 ▸ h4) (by decide))
    rw [readNextPos_lt s _ hlt]
    omega
  · have hlt : skip_whitespace s pos < s.length :=
      charAt_ne_nul_lt s _ (fun h0 => absurd (h0 ▸ h6) (by decide))
    rw [readNextPos_lt s _ hlt]
    omega
  · have hlt : skip_whitespace s pos < s.length :=
      charAt_ne_nul_lt s _ (fun h0 => absurd (h0 ▸ h7) (by decide))
    rw [readNextPos_lt s _ hlt]
    omega
  · have hlt : skip_whitespace s pos < s.length :=
      charAt_ne_nul_lt s _ (fun h0 => absurd (h0 ▸ h8) (by decide))
    rw [readNextPos_lt s _ hlt]
    omega
  · exact absurd rfl h
  · have hlt : skip_whitespace s pos < s.length := charAt_ne_nul_lt s _ h9
    rw [readNextPos_lt s _ hlt]
    omega

/-- Bounds and progress of one lexing step, bundled. -/
theorem next_token_bounds (s : List Char) (pos : Nat) (hp : pos ≤ s.length) :
    pos ≤ (next_token s pos).2 ∧ (next_token s pos).2 ≤ s.length ∧
    (next_token s pos).1.pos ≤ s.length ∧
    ((next_token s pos).1.type ≠ .END_OF_FILE → pos + 1 ≤ (next_token s pos).2) :=
  ⟨next_token_pos_ge s pos, next_token_pos_le s pos hp,
   next_token_tok_le s pos hp, next_token_progress s pos⟩

/-! ## Parser state invariant and termination -/

/-- Well-formedness of a parser state: the cursor and the lookahead's
start offset are inside the line. -/
def StOk (s : List Char) (st : PState) : Prop :=
  st.pos ≤ s.length ∧ st.tok.pos ≤ s.length

theorem advance_StOk (s : List Char) (st : PState) (h : st.pos ≤ s.length) :
    StOk s (advance s st) ∧ st.pos ≤ (advance s st).pos ∧
    ((advance s st).tok.type ≠ .END_OF_FILE → st.pos + 1 ≤ (advance s st).pos) := by
  have hb := next_token_bounds s st.pos h
  exact ⟨⟨hb.2.1, hb.2.2.1⟩, hb.1, hb.2.2.2⟩

/-- Postcondition of a `compute_atom` / `compute_expr` run started at
cursor `pos₀`: a success lands in a well-formed state with the cursor
advanced by at least one byte; an error carries a token offset inside the
line. -/
def ResOk (s : List Char) (pos₀ : Nat) : PResult → Prop
  | .ok _ st' => StOk s st' ∧ pos₀ + 1 ≤ st'.pos
  | .err _ tok => tok.pos ≤ s.length
  | .fuelout => True

/-- Postcondition of a `compute_loop` run (the cursor need not advance). -/
def ResOkLoop (s : List Char) (pos₀ : Nat) : PResult → Prop
  | .ok _ st' => StOk s st' ∧ pos₀ ≤ st'.pos
  | .err _ tok => tok.pos ≤ s.length
  | .fuelout => True

/-- The parser invariant, for every fuel value: runs from well-formed
states satisfy their postconditions. -/
theorem parser_inv (s : List Char) : ∀ fuel : Nat,
    (∀ st, StOk s st → ResOk s st.pos (compute_atom s fuel st)) ∧
    (∀ minPrec st, StOk s st → ResOk s st.pos (compute_expr s fuel minPrec st)) ∧
    (∀ minPrec lhs st, StOk s st →
      ResOkLoop s st.pos (compute_loop s fuel minPrec lhs st)) := by
  intro fuel
  induction fuel with
  | zero =>
    refine ⟨?_, ?_, ?_⟩ <;> intros <;>
      simp [compute_atom, compute_expr, compute_loop, ResOk, ResOkLoop]
  | succ f ih =>
    obtain ⟨ihA, ihE, ihL⟩ := ih
    refine ⟨?_, ?_, ?_⟩
    · intro st0 hst
      obtain ⟨hok1, hge1, hprog1⟩ := advance_StOk s st0 hst.1
      simp only [compute_atom]
      split_ifs with hl he hn
      · have hp1 : st0.pos + 1 ≤ (advance s st0).pos :=
          hprog1 (by rw [hl]; exact fun hc => nomatch hc)
        have hIH := ihE 1 (advance s st0) hok1
        cases hcall : compute_expr s f 1 (advance s st0) with
        | ok v st2 =>
          rw [hcall] at hIH
          obtain ⟨hok2, hge2⟩ := hIH
          dsimp only
          split_ifs with hr
          · exact hok2.2
          · obtain ⟨hok3, hge3, _⟩ := advance_StOk s st2 hok2.1
            exact ⟨hok3, by omega⟩
        | err e tok =>
          rw [hcall] at hIH
          exact hIH
        | fuelout => exact trivial
      · exact hok1.2
      · exact hok1.2
      · have hp1 : st0.pos + 1 ≤ (advance s st0).pos :=
          hprog1 (by
            intro hc
            rw [hc] at hn
            exact hn (by intro h2; exact nomatch h2))
        obtain ⟨hok2, hge2, _⟩ := advance_StOk s (advance s st0) hok1.1
        exact ⟨hok2, by omega⟩
    · intro minPrec st0 hst
      simp only [compute_expr]
      have hA := ihA st0 hst
      cases hcall : compute_atom s f st0 with
      | ok lhs st1 =>
        rw [hcall] at hA
        obtain ⟨hok1, hge1⟩ := hA
        have hL := ihL minPrec lhs st1 hok1
        dsimp only
        cases hcall2 : compute_loop s f minPrec lhs st1 with
        | ok v st2 =>
          rw [hcall2] at hL
          obtain ⟨hokL, hgeL⟩ := hL
          exact ⟨hokL, by omega⟩
        | err e tok =>
          rw [hcall2] at hL
          exact hL
        | fuelout => trivial
      | err e tok =>
        rw [hcall] at hA
        exact hA
      | fuelout => trivial
    · intro minPrec lhs st0 hst
      simp only [compute_loop]
      split_ifs with hbreak hill hassoc
      · exact hst.2
      · exact ⟨hst, le_refl _⟩
      · have hE := ihE ((OperatorMap st0.tok.type).prec + 1) st0 hst
        cases hcall : compute_expr s f ((OperatorMap st0.tok.type).prec + 1) st0 with
        | ok rhs st2 =>
          rw [hcall] at hE
          obtain ⟨hok2, hge2⟩ := hE
          dsimp only
          cases hop : compute_op st0.tok lhs rhs with
          | some v =>
            dsimp only
            have hL := ihL minPrec v st2 hok2
            cases hcall2 : compute_loop s f minPrec v st2 with
            | ok v2 st3 =>
              rw [hcall2] at hL
              obtain ⟨hokL, hgeL⟩ := hL
              exact ⟨hokL, by omega⟩
            | err e tok =>
              rw [hcall2] at hL
              exact hL
            | fuelout => trivial
          | none => exact hok2.2
        | err e tok =>
          rw [hcall] at hE
          exact hE
        | fuelout => trivial
      · have hE := ihE (OperatorMap st0.tok.type).prec st0 hst
        cases hcall : compute_expr s f (OperatorMap st0.tok.type).prec st0 with
        | ok rhs st2 =>
          rw [hcall] at hE
          obtain ⟨hok2, hge2⟩ := hE
          dsimp only
          cases hop : compute_op st0.tok lhs rhs with
          | some v =>
            dsimp only
            have hL := ihL minPrec v st2 hok2
            cases hcall2 : compute_loop s f minPrec v st2 with
            | ok v2 st3 =>
              rw [hcall2] at hL
              obtain ⟨hokL, hgeL⟩ := hL
              exact ⟨hokL, by omega⟩
            | err e tok =>
              rw [hcall2] at hL
              exact hL
            | fuelout => trivial
          | none => exact hok2.2
        | err e tok =>
          rw [hcall] at hE
          exact hE
        | fuelout => trivial

/-- Fuel sufficiency: with fuel at least linear in the bytes remaining
after the cursor, no parser computation runs out of fuel. -/
theorem parser_fuel (s : List Char) : ∀ fuel : Nat,
    (∀ st, StOk s st → 4 * (s.length + 1 - st.pos) ≤ fuel →
      compute_atom s fuel st ≠ .fuelout) ∧
    (∀ minPrec st, StOk s st → 4 * (s.length + 1 - st.pos) + 1 ≤ fuel →
      compute_expr s fuel minPrec st ≠ .fuelout) ∧
    (∀ minPrec lhs st, StOk s st → 4 * (s.length + 1 - st.pos) + 2 ≤ fuel →
      compute_loop s fuel minPrec lhs st ≠ .fuelout) := by
  intro fuel
  induction fuel with
  | zero =>
    refine ⟨?_, ?_, ?_⟩
    · intro st hst hf
      exact absurd hf (by have := hst.1; omega)
    · intro minPrec st hst hf
      exact absurd hf (by have := hst.1; omega)
    · intro minPrec lhs st hst hf
      exact absurd hf (by have := hst.1; omega)
  | succ f ih =>
    obtain ⟨ihA, ihE, ihL⟩ := ih
    refine ⟨?_, ?_, ?_⟩
    · intro st0 hst hf
      obtain ⟨hok1, hge1, hprog1⟩ := advance_StOk s st0 hst.1
      simp only [compute_atom]
      split_ifs with hl he hn
      · have hp1 : st0.pos + 1 ≤ (advance s st0).pos :=
          hprog1 (by rw [hl]; exact fun hc => nomatch hc)
        have hcE : compute_expr s f 1 (advance s st0) ≠ .fuelout := by
          apply ihE 1 (advance s st0) hok1
          have h1 := hok1.1
          have h0 := hst.1
          omega
        cases hcall : compute_expr s f 1 (advance s st0) with
        | ok v st2 =>
          dsimp only
          split_ifs with hr
          · exact fun hc => PResult.noConfusion hc
          · exact fun hc => PResult.noConfusion hc
        | err e tok => exact fun hc => PResult.noConfusion hc
        | fuelout => exact absurd hcall hcE
      · exact fun hc => PResult.noConfusion hc
      · exact fun hc => PResult.noConfusion hc
      · exact fun hc => PResult.noConfusion hc
    · intro minPrec st0 hst hf
      simp only [compute_expr]
      have hInvA := (parser_inv s f).1 st0 hst
      have hcA : compute_atom s f st0 ≠ .fuelout :=
        ihA st0 hst (by omega)
      cases hcall : compute_atom s f st0 with
      | ok lhs st1 =>
        rw [hcall] at hInvA
        obtain ⟨hok1, hge1⟩ := hInvA
        dsimp only
        apply ihL minPrec lhs st1 hok1
        have h1 := hok1.1
        have h0 := hst.1
        omega
      | err e tok => exact fun hc => PResult.noConfusion hc
      | fuelout => exact absurd hcall hcA
    · intro minPrec lhs st0 hst hf
      simp only [compute_loop]
      split_ifs with hbreak hill hassoc
      · exact fun hc => PResult.noConfusion hc
      · exact fun hc => PResult.noConfusion hc
      · have hInvE := (parser_inv s f).2.1 ((OperatorMap st0.tok.type).prec + 1) st0 hst
        have hcE : compute_expr s f ((OperatorMap st0.tok.type).prec + 1) st0 ≠ .fuelout :=
          ihE _ st0 hst (by omega)
        cases hcall : compute_expr s f ((OperatorMap st0.tok.type).prec + 1) st0 with
        | ok rhs st2 =>
          rw [hcall] at hInvE
          obtain ⟨hok2, hge2⟩ := hInvE
          dsimp only
          cases hop : compute_op st0.tok lhs rhs with
          | some v =>
            dsimp only
            apply ihL minPrec v st2 hok2
            have h1 := hok2.1
            have h0 := hst.1
            omega
          | none => exact fun hc => PResult.noConfusion hc
        | err e tok => exact fun hc => PResult.noConfusion hc
        | fuelout => exact absurd hcall hcE
      · have hInvE := (parser_inv s f).2.1 (OperatorMap st0.tok.type).prec st0 hst
        have hcE : compute_expr s f (OperatorMap st0.tok.type).prec st0 ≠ .fuelout :=
          ihE _ st0 hst (by omega)
        cases hcall : compute_expr s f (OperatorMap st0.tok.type).prec st0 with
        | ok rhs st2 =>
          rw [hcall] at hInvE
          obtain ⟨hok2, hge2⟩ := hInvE
          dsimp only
          cases hop : compute_op st0.tok lhs rhs with
          | some v =>
            dsimp only
            apply ihL minPrec v st2 hok2
            have h1 := hok2.1
            have h0 := hst.1
            omega
          | none => exact fun hc => PResult.noConfusion hc
        | err e tok => exact fun hc => PResult.noConfusion hc
        | fuelout => exact absurd hcall hcE

/-- `parse` never runs out of fuel: every line is fully decided. -/
theorem parse_not_fuelout (s : List Char) : parse s ≠ .fuelout := by
  apply (parser_fuel s (parseFuel s)).2.1 1 initState ⟨Nat.zero_le _, Nat.zero_le _⟩
  simp [parseFuel, initState]

/-- An error raised by `parse` carries a lookahead token whose start
offset lies inside the line. -/
theorem parse_err_tok_le (s : List Char) (e : ErrKind) (tok : Token)
    (h : parse s = .err e tok) : tok.pos ≤ s.length := by
  have hInv := (parser_inv s (parseFuel s)).2.1 1 initState
    ⟨Nat.zero_le _, Nat.zero_le _⟩
  rw [show compute_expr s (parseFuel s) 1 initState = parse s from rfl, h] at hInv
  exact hInv

/-! ## Error-location rendering on well-formed lines -/

/-- `charAt` never returns a character that is neither in the line nor
the terminator. -/
theorem charAt_ne (s : List Char) (i : Nat) (c : Char) (hc : c ∉ s)
    (h0 : c ≠ '\x00') : charAt s i ≠ c := by
  rw [charAt]
  by_cases hi : i < s.length
  · rw [List.getD_eq_getElem _ _ hi]
    exact fun he => hc (he ▸ List.getElem_mem hi)
  · rw [List.getD_eq_default _ _ (Nat.le_of_not_lt hi)]
    exact fun he => h0 he.symm

/-- On a line without a newline byte, the backward scan reaches the start
of the buffer. -/
theorem findSol_eq_zero (s : List Char) (hn : '\n' ∉ s) :
    ∀ p : Nat, findSol s p = 0 := by
  intro p
  induction p with
  | zero => rfl
  | succ p ih =>
    rw [findSol, if_neg (charAt_ne s (p + 1) '\n' hn (by decide)), ih]

theorem findEolAux_no_nl_nul (s : List Char) (hn : '\n' ∉ s) (h0 : '\x00' ∉ s) :
    ∀ (fuel p : Nat), p ≤ s.length → s.length - p < fuel →
      findEolAux s fuel p = some s.length := by
  intro fuel
  induction fuel with
  | zero =>
    intro p hp hf
    omega
  | succ f ih =>
    intro p hp hf
    rw [findEolAux, if_pos hp]
    by_cases hpe : p = s.length
    · rw [if_pos (Or.inr (by rw [hpe, charAt, List.getD_eq_default _ _ (le_refl _)])), hpe]
    · have hlt : p < s.length := by omega
      rw [if_neg, ih (p + 1) (by omega) (by omega)]
      push_neg
      refine ⟨charAt_ne s p '\n' hn (by decide), ?_⟩
      rw [charAt, List.getD_eq_getElem _ _ hlt]
      exact fun he => h0 (he ▸ List.getElem_mem hlt)

/-- On a line without newline or NUL bytes the forward scan stops exactly
at the terminator. -/
theorem findEol_no_nl_nul (s : List Char) (hn : '\n' ∉ s) (h0 : '\x00' ∉ s)
    (p : Nat) (hp : p ≤ s.length) : findEol s p = some s.length :=
  findEolAux_no_nl_nul s hn h0 _ p hp (by omega)

theorem wrap64_eq (i : Int) (h0 : 0 ≤ i) (h1 : i < 18446744073709551616) :
    wrap64 i = i.toNat := by
  rw [wrap64, Int.emod_eq_of_lt h0 h1]

theorem wrap64_nat_sub_zero (n : Nat) (h : n < 18446744073709551616) :
    wrap64 ((n : Int) - ((0 : Nat) : Int)) = n := by
  rw [wrap64_eq _ (by omega) (by omega)]
  omega

/-- Characterization of `show_error_location` on a well-formed line: a
nonempty single line without NUL bytes, whose length fits in `size_t`,
with the token offset inside it.  The rendering is the line itself
(trailing carriage return trimmed), a newline, one space per byte of the
token's offset, and the caret. -/
theorem show_error_location_eq (s : List Char) (tokPos : Nat)
    (hn : '\n' ∉ s) (h0 : '\x00' ∉ s) (hne : s ≠ [])
    (hp : tokPos ≤ s.length) (hlen : s.length < 18446744073709551616) :
    show_error_location s tokPos =
      some (s.take (if charAt s (s.length - 1) = '\r' then s.length - 1 else s.length) ++
        '\n' :: (List.replicate tokPos ' ' ++ ['^'])) := by
  have hs0 : charAt s 0 ≠ '\x00' := by
    have hl : 0 < s.length := List.length_pos.2 hne
    rw [charAt, List.getD_eq_getElem _ _ hl]
    exact fun he => h0 (he ▸ List.getElem_mem hl)
  rw [show_error_location]
  rw [findSol_eq_zero s hn tokPos]
  rw [if_neg hs0]
  rw [findEol_no_nl_nul s hn h0 0 (Nat.zero_le _)]
  have hl1 : 1 ≤ s.length := List.length_pos.2 hne
  have hread : cRead s ((s.length : Int) - 1) = some (charAt s (s.length - 1)) := by
    rw [cRead, if_pos (by constructor <;> omega)]
    congr 1
    congr 1
    omega
  dsimp only
  rw [hread]
  dsimp only
  split_ifs with hcr hguard hguard
  · rw [wrap64_nat_sub_zero _ (by omega), wrap64_nat_sub_zero _ (by omega)]
  · rw [wrap64_nat_sub_zero _ (by omega)] at hguard
    omega
  · rw [wrap64_nat_sub_zero _ (by omega), wrap64_nat_sub_zero _ (by omega)]
  · rw [wrap64_nat_sub_zero _ (by omega)] at hguard
    omega

/-! ## Loop-exit behaviour -/

/-- The climb loop returns the accumulated value, without consuming
anything and without error, as soon as the lookahead is not an operator
token and not an illegal character. -/
theorem compute_loop_exit (s : List Char) (fuel minPrec : Nat) (lhs : EVal)
    (st : PState)
    (h : st.tok.type = .NUMBER ∨ st.tok.type = .LEFT_PAREN ∨
      st.tok.type = .RIGHT_PAREN ∨ st.tok.type = .END_OF_FILE) :
    compute_loop s (fuel + 1) minPrec lhs st = .ok lhs st := by
  rcases h with h | h | h | h <;>
    simp [compute_loop, h, tokNum]

/-- The climb loop raises `UnknownOperator` at an illegal-character
lookahead, whatever the minimum precedence. -/
theorem compute_loop_illegal (s : List Char) (fuel minPrec : Nat) (lhs : EVal)
    (st : PState) (h : st.tok.type = .ILLEGAL_CHARACTER) :
    compute_loop s (fuel + 1) minPrec lhs st = .err .UnknownOperator st.tok := by
  simp [compute_loop, h, tokNum]

/-- On a line starting with `-`, `compute_atom` meets the `SUBTRACT`
lookahead where an atom is required and raises `UnexpectedToken`: the
evaluator has no unary-minus support. -/
theorem parse_cons_minus (rest : List Char) :
    parse ('-' :: rest) = .err .UnexpectedToken ⟨0, ['-'], .SUBTRACT⟩ := by
  have hadv : advance ('-' :: rest) initState = ⟨1, ⟨0, ['-'], .SUBTRACT⟩⟩ := by
    simp +decide [advance, initState, next_token, skip_whitespace, skipWsAux,
      isWs, charAt, readNextPos]
  have h2 : parseFuel ('-' :: rest) = (4 * rest.length + 7) + 2 := by
    simp [parseFuel]
    omega
  rw [parse, h2, compute_expr, compute_atom, hadv]
  simp

/-! ## The reference grammar semantics

For the refinement claim, a second definition follows the specification's
words rather than the code: the value of an expression is dictated by the
stratified grammar of the precedence table —

    e1   ::= e2 loop1          loop1 ::= ε | ("+" | "-") e2 loop1
    e2   ::= e3 loop2          loop2 ::= ε | ("*" | "/") e3 loop2
    e3   ::= atom powtail      powtail ::= ε | "**" e3
    atom ::= number | "(" e1 ")"

with Add/Subtract at precedence 1 and Multiply/Divide at precedence 2
folded left to right (`loop1`/`loop2` carry the running left-hand value),
and right-associative Power by right recursion (`powtail`).  A loop may
only stop when the lookahead is not one of its operators and is not an
illegal character (an illegal character in operator position is an error,
not part of a valid expression).  `Ref s k n lhs st v st'` says: starting
from parser state `st` with running value `lhs` (meaningful only for the
loop kinds), the nonterminal `k` derives the value `v`, leaving state
`st'`; `n` counts the derivation's nodes and only drives inductions; the
accumulator slot of a non-loop hypothesis is irrelevant and filled with
the placeholder `nan`. -/

/-- Nonterminals of the reference grammar. -/
inductive RunKind where
  | atom
  | e3
  | powtail
  | loop2
  | e2
  | loop1
  | e1
deriving DecidableEq, Repr

/-- The reference big-step semantics (see the section comment). -/
inductive Ref (s : List Char) :
    RunKind → Nat → EVal → PState → EVal → PState → Prop where
  | num (lhs : EVal) (st : PState)
      (h : (advance s st).tok.type = .NUMBER) :
      Ref s .atom 1 lhs st (strtod (advance s st).tok.text)
        (advance s (advance s st))
  | paren (lhs : EVal) (st : PState) (n : Nat) (v : EVal) (st2 : PState)
      (h1 : (advance s st).tok.type = .LEFT_PAREN)
      (h2 : Ref s .e1 n .nan (advance s st) v st2)
      (h3 : st2.tok.type = .RIGHT_PAREN) :
      Ref s .atom (n + 1) lhs st v (advance s st2)
  | e3_mk (lhs : EVal) (st : PState) (n1 n2 : Nat) (v : EVal) (st1 : PState)
      (w : EVal) (st2 : PState)
      (h1 : Ref s .atom n1 .nan st v st1)
      (h2 : Ref s .powtail n2 v st1 w st2) :
      Ref s .e3 (n1 + n2 + 1) lhs st w st2
  | pow_exit (lhs : EVal) (st : PState)
      (h1 : st.tok.type ≠ .POWER) (h2 : st.tok.type ≠ .ILLEGAL_CHARACTER) :
      Ref s .powtail 1 lhs st lhs st
  | pow_step (lhs : EVal) (st : PState) (n : Nat) (rhs : EVal) (st2 : PState)
      (h1 : st.tok.type = .POWER)
      (h2 : Ref s .e3 n .nan st rhs st2) :
      Ref s .powtail (n + 1) lhs st (evPow lhs rhs) st2
  | loop2_exit (lhs : EVal) (st : PState)
      (h1 : st.tok.type ≠ .MULTIPLY) (h2 : st.tok.type ≠ .DIVIDE)
      (h3 : st.tok.type ≠ .ILLEGAL_CHARACTER) :
      Ref s .loop2 1 lhs st lhs st
  | loop2_mul (lhs : EVal) (st : PState) (n1 n2 : Nat) (rhs : EVal)
      (st2 : PState) (w : EVal) (st3 : PState)
      (h1 : st.tok.type = .MULTIPLY)
      (h2 : Ref s .e3 n1 .nan st rhs st2)
      (h3 : Ref s .loop2 n2 (evMul lhs rhs) st2 w st3) :
      Ref s .loop2 (n1 + n2 + 1) lhs st w st3
  | loop2_div (lhs : EVal) (st : PState) (n1 n2 : Nat) (rhs : EVal)
      (st2 : PState) (w : EVal) (st3 : PState)
      (h1 : st.tok.type = .DIVIDE)
      (h2 : Ref s .e3 n1 .nan st rhs st2)
      (h3 : Ref s .loop2 n2 (evDiv lhs rhs) st2 w st3) :
      Ref s .loop2 (n1 + n2 + 1) lhs st w st3
  | e2_mk (lhs : EVal) (st : PState) (n1 n2 : Nat) (v : EVal) (st1 : PState)
      (w : EVal) (st2 : PState)
      (h1 : Ref s .e3 n1 .nan st v st1)
      (h2 : Ref s .loop2 n2 v st1 w st2) :
      Ref s .e2 (n1 + n2 + 1) lhs st w st2
  | loop1_exit (lhs : EVal) (st : PState)
      (h1 : st.tok.type ≠ .ADD) (h2 : st.tok.type ≠ .SUBTRACT)
      (h3 : st.tok.type ≠ .ILLEGAL_CHARACTER) :
      Ref s .loop1 1 lhs st lhs st
  | loop1_add (lhs : EVal) (st : PState) (n1 n2 : Nat) (rhs : EVal)
      (st2 : PState) (w : EVal) (st3 : PState)
      (h1 : st.tok.type = .ADD)
      (h2 : Ref s .e2 n1 .nan st rhs st2)
      (h3 : Ref s .loop1 n2 (evAdd lhs rhs) st2 w st3) :
      Ref s .loop1 (n1 + n2 + 1) lhs st w st3
  | loop1_sub (lhs : EVal) (st : PState) (n1 n2 : Nat) (rhs : EVal)
      (st2 : PState) (w : EVal) (st3 : PState)
      (h1 : st.tok.type = .SUBTRACT)
      (h2 : Ref s .e2 n1 .nan st rhs st2)
      (h3 : Ref s .loop1 n2 (evSub lhs rhs) st2 w st3) :
      Ref s .loop1 (n1 + n2 + 1) lhs st w st3
  | e1_mk (lhs : EVal) (st : PState) (n1 n2 : Nat) (v : EVal) (st1 : PState)
      (w : EVal) (st2 : PState)
      (h1 : Ref s .e2 n1 .nan st v st1)
      (h2 : Ref s .loop1 n2 v st1 w st2) :
      Ref s .e1 (n1 + n2 + 1) lhs st w st2

/-- The lookahead classification at the end of a reference derivation:
each level consumes every operator of its own stratum (and of the strata
it contains), so the final lookahead cannot continue the level. -/
def ExitFact : RunKind → PState → PState → Prop
  | .atom, _, _ => True
  | .e3, _, st' =>
      st'.tok.type ≠ .POWER ∧ st'.tok.type ≠ .ILLEGAL_CHARACTER
  | .powtail, _, st' =>
      st'.tok.type ≠ .POWER ∧ st'.tok.type ≠ .ILLEGAL_CHARACTER
  | .loop2, st, st' =>
      (st.tok.type ≠ .POWER → st'.tok.type ≠ .POWER) ∧
      st'.tok.type ≠ .MULTIPLY ∧ st'.tok.type ≠ .DIVIDE ∧
      st'.tok.type ≠ .ILLEGAL_CHARACTER
  | .e2, _, st' =>
      st'.tok.type ≠ .POWER ∧ st'.tok.type ≠ .MULTIPLY ∧
      st'.tok.type ≠ .DIVIDE ∧ st'.tok.type ≠ .ILLEGAL_CHARACTER
  | .loop1, st, st' =>
      ((st.tok.type ≠ .POWER ∧ st.tok.type ≠ .MULTIPLY ∧
          st.tok.type ≠ .DIVIDE) →
        (st'.tok.type ≠ .POWER ∧ st'.tok.type ≠ .MULTIPLY ∧
          st'.tok.type ≠ .DIVIDE)) ∧
      st'.tok.type ≠ .ADD ∧ st'.tok.type ≠ .SUBTRACT ∧
      st'.tok.type ≠ .ILLEGAL_CHARACTER
  | .e1, _, st' =>
      st'.tok.type ≠ .ADD ∧ st'.tok.type ≠ .SUBTRACT ∧
      st'.tok.type ≠ .MULTIPLY ∧ st'.tok.type ≠ .DIVIDE ∧
      st'.tok.type ≠ .POWER ∧ st'.tok.type ≠ .ILLEGAL_CHARACTER

theorem ref_exit (s : List Char) (k : RunKind) (n : Nat) (lhs : EVal)
    (st : PState) (v : EVal) (st' : PState)
    (h : Ref s k n lhs st v st') : ExitFact k st st' := by
  induction h with
  | num => trivial
  | paren => trivial
  | e3_mk lhs st n1 n2 v st1 w st2 h1 h2 ih1 ih2 => exact ih2
  | pow_exit lhs st h1 h2 => exact ⟨h1, h2⟩
  | pow_step lhs st n rhs st2 h1 h2 ih => exact ih
  | loop2_exit lhs st h1 h2 h3 => exact ⟨fun hp => hp, h1, h2, h3⟩
  | loop2_mul lhs st n1 n2 rhs st2 w st3 h1 h2 h3 ih2 ih3 =>
    exact ⟨fun _ => ih3.1 ih2.1, ih3.2⟩
  | loop2_div lhs st n1 n2 rhs st2 w st3 h1 h2 h3 ih2 ih3 =>
    exact ⟨fun _ => ih3.1 ih2.1, ih3.2⟩
  | e2_mk lhs st n1 n2 v st1 w st2 h1 h2 ih1 ih2 =>
    exact ⟨ih2.1 ih1.1, ih2.2⟩
  | loop1_exit lhs st h1 h2 h3 => exact ⟨fun hp => hp, h1, h2, h3⟩
  | loop1_add lhs st n1 n2 rhs st2 w st3 h1 h2 h3 ih2 ih3 =>
    exact ⟨fun _ => ih3.1 ⟨ih2.1, ih2.2.1, ih2.2.2.1⟩, ih3.2⟩
  | loop1_sub lhs st n1 n2 rhs st2 w st3 h1 h2 h3 ih2 ih3 =>
    exact ⟨fun _ => ih3.1 ⟨ih2.1, ih2.2.1, ih2.2.2.1⟩, ih3.2⟩
  | e1_mk lhs st n1 n2 v st1 w st2 h1 h2 ih1 ih2 =>
    have h3 := ih2.1 ⟨ih1.1, ih1.2.1, ih1.2.2.1⟩
    exact ⟨ih2.2.1, ih2.2.2.1, h3.2.1, h3.2.2, h3.1, ih2.2.2.2⟩

/-! ## Climbing-loop step and exit lemmas -/

/-- The climb loop at minimum precedence 3 stops immediately unless the
lookahead is `**` (every other operator has lower precedence). -/
theorem compute_loop_exit_lvl3 (s : List Char) (fuel : Nat) (lhs : EVal)
    (st : PState) (h1 : st.tok.type ≠ .POWER)
    (h2 : st.tok.type ≠ .ILLEGAL_CHARACTER) :
    compute_loop s (fuel + 1) 3 lhs st = .ok lhs st := by
  have hbr : (tokNum st.tok.type > tokNum TokenType.POWER ∨
      tokNum st.tok.type < tokNum TokenType.ADD) ∨
      (OperatorMap st.tok.type).prec < 3 := by
    cases htype : st.tok.type <;> first | decide | exact absurd htype h1
  simp only [compute_loop]
  rw [if_pos hbr, if_neg h2]

/-- The climb loop at minimum precedence 2 stops immediately unless the
lookahead is `*`, `/` or `**`. -/
theorem compute_loop_exit_lvl2 (s : List Char) (fuel : Nat) (lhs : EVal)
    (st : PState) (h1 : st.tok.type ≠ .MULTIPLY) (h2 : st.tok.type ≠ .DIVIDE)
    (h3 : st.tok.type ≠ .POWER) (h4 : st.tok.type ≠ .ILLEGAL_CHARACTER) :
    compute_loop s (fuel + 1) 2 lhs st = .ok lhs st := by
  have hbr : (tokNum st.tok.type > tokNum TokenType.POWER ∨
      tokNum st.tok.type < tokNum TokenType.ADD) ∨
      (OperatorMap st.tok.type).prec < 2 := by
    cases htype : st.tok.type <;>
      first | decide | exact absurd htype h1 | exact absurd htype h2 |
        exact absurd htype h3
  simp only [compute_loop]
  rw [if_pos hbr, if_neg h4]

/-- The climb loop at minimum precedence 1 stops immediately when the
lookahead is no binary operator and no illegal character. -/
theorem compute_loop_exit_lvl1 (s : List Char) (fuel : Nat) (lhs : EVal)
    (st : PState) (h1 : st.tok.type ≠ .ADD) (h2 : st.tok.type ≠ .SUBTRACT)
    (h3 : st.tok.type ≠ .MULTIPLY) (h4 : st.tok.type ≠ .DIVIDE)
    (h5 : st.tok.type ≠ .POWER) (h6 : st.tok.type ≠ .ILLEGAL_CHARACTER) :
    compute_loop s (fuel + 1) 1 lhs st = .ok lhs st := by
  have hbr : (tokNum st.tok.type > tokNum TokenType.POWER ∨
      tokNum st.tok.type < tokNum TokenType.ADD) ∨
      (OperatorMap st.tok.type).prec < 1 := by
    cases htype : st.tok.type <;>
      first | decide | exact absurd htype h1 | exact absurd htype h2 |
        exact absurd htype h3 | exact absurd htype h4 | exact absurd htype h5
  simp only [compute_loop]
  rw [if_pos hbr, if_neg h6]

/-- One iteration of the climb loop at an operator lookahead of
sufficient precedence: recurse at the bumped (left-associative) or
unchanged (right-associative) minimum precedence, combine, continue. -/
theorem compute_loop_step_eq (s : List Char) (g minPrec : Nat) (lhs : EVal)
    (st : PState) (t : TokenType) (ht : st.tok.type = t)
    (hop : tokNum t ≤ tokNum TokenType.POWER)
    (hprec : minPrec ≤ (OperatorMap t).prec) :
    compute_loop s (g + 1) minPrec lhs st =
      (match compute_expr s g (if (OperatorMap t).assoc = .LEFT
          then (OperatorMap t).prec + 1 else (OperatorMap t).prec) st with
      | .ok rhs st2 =>
        (match compute_op st.tok lhs rhs with
        | some v => compute_loop s g minPrec v st2
        | none => .err .UnknownOperator st2.tok)
      | r => r) := by
  simp only [compute_loop, ht]
  rw [if_neg]
  push_neg
  exact ⟨⟨hop, Nat.zero_le _⟩, hprec⟩

/-- Goal of the refinement simulation, per grammar nonterminal: whenever
the reference derives a value, the climbing parser at the corresponding
minimum precedence — given fuel linear in the bytes after the cursor —
computes the same value and stops in the same state. -/
def SimGoal (s : List Char) : RunKind → EVal → PState → EVal → PState → Prop
  | .atom, _, st, v, st' =>
      ∀ g, 4 * (s.length + 1 - st.pos) ≤ g → compute_atom s g st = .ok v st'
  | .e3, _, st, v, st' =>
      ∀ g, 4 * (s.length + 1 - st.pos) + 1 ≤ g →
        compute_expr s g 3 st = .ok v st'
  | .powtail, lhs, st, v, st' =>
      ∀ g, 4 * (s.length + 1 - st.pos) + 2 ≤ g →
        compute_loop s g 3 lhs st = .ok v st'
  | .loop2, lhs, st, v, st' =>
      st.tok.type ≠ .POWER →
      ∀ g, 4 * (s.length + 1 - st.pos) + 2 ≤ g →
        compute_loop s g 2 lhs st = .ok v st'
  | .e2, _, st, v, st' =>
      ∀ g, 4 * (s.length + 1 - st.pos) + 1 ≤ g →
        compute_expr s g 2 st = .ok v st'
  | .loop1, lhs, st, v, st' =>
      st.tok.type ≠ .POWER → st.tok.type ≠ .MULTIPLY →
      st.tok.type ≠ .DIVIDE →
      ∀ g, 4 * (s.length + 1 - st.pos) + 2 ≤ g →
        compute_loop s g 1 lhs st = .ok v st'
  | .e1, _, st, v, st' =>
      ∀ g, 4 * (s.length + 1 - st.pos) + 1 ≤ g →
        compute_expr s g 1 st = .ok v st'

/-- The refinement simulation: every reference derivation is reproduced
by the precedence climber, by strong induction on the derivation size.
The second conjunct handles the level-1 climb loop, which absorbs a
level-2 tail followed by a level-1 tail in a single loop. -/
theorem ref_sim (s : List Char) : ∀ N : Nat,
    (∀ (k : RunKind) (n : Nat) (lhs : EVal) (st : PState) (v : EVal)
        (st' : PState), n ≤ N → Ref s k n lhs st v st' → StOk s st →
      SimGoal s k lhs st v st') ∧
    (∀ (n2 n3 : Nat) (v1 : EVal) (st1 : PState) (v2 : EVal) (st2 : PState)
        (v3 : EVal) (st3 : PState), n2 + n3 ≤ N →
      Ref s .loop2 n2 v1 st1 v2 st2 → Ref s .loop1 n3 v2 st2 v3 st3 →
      StOk s st1 → st1.tok.type ≠ .POWER →
      ∀ g, 4 * (s.length + 1 - st1.pos) + 2 ≤ g →
        compute_loop s g 1 v1 st1 = .ok v3 st3) := by
  intro N
  induction N using Nat.strong_induction_on with
  | _ N IH =>
  have SIM1 : ∀ (k : RunKind) (n : Nat) (lhs : EVal) (st : PState) (v : EVal)
      (st' : PState), n ≤ N → Ref s k n lhs st v st' → StOk s st →
      SimGoal s k lhs st v st' := by
    intro k n lhs st v st' hn h hst
    have hstpos : st.pos ≤ s.length := hst.1
    cases h with
    | num =>
      rename_i hnum
      intro g hg
      obtain ⟨g', rfl⟩ : ∃ g', g = g' + 1 := ⟨g - 1, by omega⟩
      have h1 : ¬((advance s st).tok.type = .LEFT_PAREN) := by
        rw [hnum]; exact fun hc => nomatch hc
      have h2 : ¬((advance s st).tok.type = .END_OF_FILE) := by
        rw [hnum]; exact fun hc => nomatch hc
      have h3 : ¬((advance s st).tok.type ≠ .NUMBER) := fun hc => hc hnum
      simp only [compute_atom]
      rw [if_neg h1, if_neg h2, if_neg h3]
    | paren =>
      rename_i n1 st2 hRP hLP hE1
      intro g hg
      obtain ⟨hok1, hge1, hprog1⟩ := advance_StOk s st hst.1
      have hp1 : st.pos + 1 ≤ (advance s st).pos :=
        hprog1 (by rw [hLP]; exact fun hc => nomatch hc)
      have hokl := hok1.1
      obtain ⟨g', rfl⟩ : ∃ g', g = g' + 1 := ⟨g - 1, by omega⟩
      have hE1run : compute_expr s g' 1 (advance s st) = .ok v st2 :=
        (IH n1 (by omega)).1 .e1 n1 .nan (advance s st) v st2
          (le_refl n1) hE1 hok1 g' (by omega)
      simp only [compute_atom]
      rw [if_pos hLP, hE1run]
      try dsimp only
      rw [if_neg (fun hc => hc hRP)]
    | e3_mk =>
      rename_i n1 n2 v0 st0 hAtom hPow
      intro g hg
      obtain ⟨g', rfl⟩ : ∃ g', g = g' + 1 := ⟨g - 1, by omega⟩
      have hAtomRun : compute_atom s g' st = .ok v0 st0 :=
        (IH n1 (by omega)).1 .atom n1 .nan st v0 st0 (le_refl _) hAtom hst g'
          (by omega)
      have hInv := (parser_inv s g').1 st hst
      rw [hAtomRun] at hInv
      obtain ⟨hok0, hge0⟩ := hInv
      have hok0l := hok0.1
      have hPowRun : compute_loop s g' 3 v0 st0 = .ok v st' :=
        (IH n2 (by omega)).1 .powtail n2 v0 st0 v st' (le_refl _) hPow hok0 g'
          (by omega)
      simp only [compute_expr]
      rw [hAtomRun]
      try dsimp only
      exact hPowRun
    | pow_exit =>
      rename_i h1 h2
      intro g hg
      obtain ⟨g', rfl⟩ : ∃ g', g = g' + 1 := ⟨g - 1, by omega⟩
      exact compute_loop_exit_lvl3 s g' lhs st h1 h2
    | pow_step =>
      rename_i n1 rhs hP hE3
      intro g hg
      obtain ⟨g', rfl⟩ : ∃ g', g = g' + 1 := ⟨g - 1, by omega⟩
      have hE3run : compute_expr s g' 3 st = .ok rhs st' :=
        (IH n1 (by omega)).1 .e3 n1 .nan st rhs st' (le_refl _) hE3 hst g'
          (by omega)
      have hExit := ref_exit s .e3 n1 .nan st rhs st' hE3
      rw [compute_loop_step_eq s g' 3 lhs st .POWER hP (by decide) (by decide)]
      rw [show (if (OperatorMap TokenType.POWER).assoc = Associativity.LEFT
          then (OperatorMap TokenType.POWER).prec + 1
          else (OperatorMap TokenType.POWER).prec) = 3 from rfl]
      rw [hE3run]
      try dsimp only
      simp only [compute_op, hP]
      try dsimp only
      obtain ⟨g'', rfl⟩ : ∃ g'', g' = g'' + 1 := ⟨g' - 1, by omega⟩
      exact compute_loop_exit_lvl3 s g'' (evPow lhs rhs) st' hExit.1 hExit.2
    | loop2_exit =>
      rename_i h1 h2 h3
      intro hnp g hg
      obtain ⟨g', rfl⟩ : ∃ g', g = g' + 1 := ⟨g - 1, by omega⟩
      exact compute_loop_exit_lvl2 s g' lhs st h1 h2 hnp h3
    | loop2_mul =>
      rename_i n1 n2 rhs st2 hM hE3 hL2
      intro hnp g hg
      obtain ⟨g', rfl⟩ : ∃ g', g = g' + 1 := ⟨g - 1, by omega⟩
      have hE3run : compute_expr s g' 3 st = .ok rhs st2 :=
        (IH n1 (by omega)).1 .e3 n1 .nan st rhs st2 (le_refl _) hE3 hst g'
          (by omega)
      have hInv := (parser_inv s g').2.1 3 st hst
      rw [hE3run] at hInv
      obtain ⟨hok2, hge2⟩ := hInv
      have hok2l := hok2.1
      have hExit := ref_exit s .e3 n1 .nan st rhs st2 hE3
      rw [compute_loop_step_eq s g' 2 lhs st .MULTIPLY hM (by decide) (by decide)]
      rw [show (if (OperatorMap TokenType.MULTIPLY).assoc = Associativity.LEFT
          then (OperatorMap TokenType.MULTIPLY).prec + 1
          else (OperatorMap TokenType.MULTIPLY).prec) = 3 from rfl]
      rw [hE3run]
      try dsimp only
      simp only [compute_op, hM]
      try dsimp only
      exact (IH n2 (by omega)).1 .loop2 n2 (evMul lhs rhs) st2 v st'
        (le_refl _) hL2 hok2 hExit.1 g' (by omega)
    | loop2_div =>
      rename_i n1 n2 rhs st2 hD hE3 hL2
      intro hnp g hg
      obtain ⟨g', rfl⟩ : ∃ g', g = g' + 1 := ⟨g - 1, by omega⟩
      have hE3run : compute_expr s g' 3 st = .ok rhs st2 :=
        (IH n1 (by omega)).1 .e3 n1 .nan st rhs st2 (le_refl _) hE3 hst g'
          (by omega)
      have hInv := (parser_inv s g').2.1 3 st hst
      rw [hE3run] at hInv
      obtain ⟨hok2, hge2⟩ := hInv
      have hok2l := hok2.1
      have hExit := ref_exit s .e3 n1 .nan st rhs st2 hE3
      rw [compute_loop_step_eq s g' 2 lhs st .DIVIDE hD (by decide) (by decide)]
      rw [show (if (OperatorMap TokenType.DIVIDE).assoc = Associativity.LEFT
          then (OperatorMap TokenType.DIVIDE).prec + 1
          else (OperatorMap TokenType.DIVIDE).prec) = 3 from rfl]
      rw [hE3run]
      try dsimp only
      simp only [compute_op, hD]
      try dsimp only
      exact (IH n2 (by omega)).1 .loop2 n2 (evDiv lhs rhs) st2 v st'
        (le_refl _) hL2 hok2 hExit.1 g' (by omega)
    | e2_mk =>
      rename_i n1 n2 v1 st1 hE3 hL2
      intro g hg
      obtain ⟨g', rfl⟩ : ∃ g', g = g' + 1 := ⟨g - 1, by omega⟩
      cases hE3 with
      | e3_mk =>
        rename_i n1a n1b v0 st0 hAtom hPow
        have hAtomRun : compute_atom s g' st = .ok v0 st0 :=
          (IH n1a (by omega)).1 .atom n1a .nan st v0 st0 (le_refl _) hAtom hst
            g' (by omega)
        have hInv := (parser_inv s g').1 st hst
        rw [hAtomRun] at hInv
        obtain ⟨hok0, hge0⟩ := hInv
        have hok0l := hok0.1
        simp only [compute_expr]
        rw [hAtomRun]
        try dsimp only
        cases hPow with
        | pow_exit =>
          rename_i hnp hni
          exact (IH n2 (by omega)).1 .loop2 n2 v1 st1 v st' (le_refl _) hL2
            hok0 hnp g' (by omega)
        | pow_step =>
          rename_i n1c rhs hP hE3sub
          obtain ⟨g'', rfl⟩ : ∃ g'', g' = g'' + 1 := ⟨g' - 1, by omega⟩
          have hE3run : compute_expr s g'' 3 st0 = .ok rhs st1 :=
            (IH n1c (by omega)).1 .e3 n1c .nan st0 rhs st1 (le_refl _) hE3sub
              hok0 g'' (by omega)
          have hInv2 := (parser_inv s g'').2.1 3 st0 hok0
          rw [hE3run] at hInv2
          obtain ⟨hok1, hge1⟩ := hInv2
          have hok1l := hok1.1
          have hExit := ref_exit s .e3 n1c .nan st0 rhs st1 hE3sub
          rw [compute_loop_step_eq s g'' 2 v0 st0 .POWER hP (by decide)
            (by decide)]
          rw [show (if (OperatorMap TokenType.POWER).assoc = Associativity.LEFT
              then (OperatorMap TokenType.POWER).prec + 1
              else (OperatorMap TokenType.POWER).prec) = 3 from rfl]
          rw [hE3run]
          try dsimp only
          simp only [compute_op, hP]
          try dsimp only
          exact (IH n2 (by omega)).1 .loop2 n2 (evPow v0 rhs) st1 v st'
            (le_refl _) hL2 hok1 hExit.1 g'' (by omega)
    | loop1_exit =>
      rename_i h1 h2 h3
      intro hnp hnm hnd g hg
      obtain ⟨g', rfl⟩ : ∃ g', g = g' + 1 := ⟨g - 1, by omega⟩
      exact compute_loop_exit_lvl1 s g' lhs st h1 h2 hnm hnd hnp h3
    | loop1_add =>
      rename_i n1 n2 rhs st2 hA hE2 hL1
      intro hnp hnm hnd g hg
      obtain ⟨g', rfl⟩ : ∃ g', g = g' + 1 := ⟨g - 1, by omega⟩
      have hE2run : compute_expr s g' 2 st = .ok rhs st2 :=
        (IH n1 (by omega)).1 .e2 n1 .nan st rhs st2 (le_refl _) hE2 hst g'
          (by omega)
      have hInv := (parser_inv s g').2.1 2 st hst
      rw [hE2run] at hInv
      obtain ⟨hok2, hge2⟩ := hInv
      have hok2l := hok2.1
      have hExit := ref_exit s .e2 n1 .nan st rhs st2 hE2
      rw [compute_loop_step_eq s g' 1 lhs st .ADD hA (by decide) (by decide)]
      rw [show (if (OperatorMap TokenType.ADD).assoc = Associativity.LEFT
          then (OperatorMap TokenType.ADD).prec + 1
          else (OperatorMap TokenType.ADD).prec) = 2 from rfl]
      rw [hE2run]
      try dsimp only
      simp only [compute_op, hA]
      try dsimp only
      exact (IH n2 (by omega)).1 .loop1 n2 (evAdd lhs rhs) st2 v st'
        (le_refl _) hL1 hok2 hExit.1 hExit.2.1 hExit.2.2.1 g' (by omega)
    | loop1_sub =>
      rename_i n1 n2 rhs st2 hS hE2 hL1
      intro hnp hnm hnd g hg
      obtain ⟨g', rfl⟩ : ∃ g', g = g' + 1 := ⟨g - 1, by omega⟩
      have hE2run : compute_expr s g' 2 st = .ok rhs st2 :=
        (IH n1 (by omega)).1 .e2 n1 .nan st rhs st2 (le_refl _) hE2 hst g'
          (by omega)
      have hInv := (parser_inv s g').2.1 2 st hst
      rw [hE2run] at hInv
      obtain ⟨hok2, hge2⟩ := hInv
      have hok2l := hok2.1
      have hExit := ref_exit s .e2 n1 .nan st rhs st2 hE2
      rw [compute_loop_step_eq s g' 1 lhs st .SUBTRACT hS (by decide)
        (by decide)]
      rw [show (if (OperatorMap TokenType.SUBTRACT).assoc = Associativity.LEFT
          then (OperatorMap TokenType.SUBTRACT).prec + 1
          else (OperatorMap TokenType.SUBTRACT).prec) = 2 from rfl]
      rw [hE2run]
      try dsimp only
      simp only [compute_op, hS]
      try dsimp only
      exact (IH n2 (by omega)).1 .loop1 n2 (evSub lhs rhs) st2 v st'
        (le_refl _) hL1 hok2 hExit.1 hExit.2.1 hExit.2.2.1 g' (by omega)
    | e1_mk =>
      rename_i n1 n2 v1 st1 hE2 hL1
      intro g hg
      obtain ⟨g', rfl⟩ : ∃ g', g = g' + 1 := ⟨g - 1, by omega⟩
      cases hE2 with
      | e2_mk =>
        rename_i n1a n1b v23 st23 hE3 hL2
        cases hE3 with
        | e3_mk =>
          rename_i n1aa n1ab v0 st0 hAtom hPow
          have hAtomRun : compute_atom s g' st = .ok v0 st0 :=
            (IH n1aa (by omega)).1 .atom n1aa .nan st v0 st0 (le_refl _)
              hAtom hst g' (by omega)
          have hInv := (parser_inv s g').1 st hst
          rw [hAtomRun] at hInv
          obtain ⟨hok0, hge0⟩ := hInv
          have hok0l := hok0.1
          simp only [compute_expr]
          rw [hAtomRun]
          try dsimp only
          cases hPow with
          | pow_exit =>
            rename_i hnp hni
            exact (IH (n1b + n2) (by omega)).2 n1b n2 v23 st23 v1 st1 v st'
              (le_refl _) hL2 hL1 hok0 hnp g' (by omega)
          | pow_step =>
            rename_i n1ac rhs hP hE3sub
            obtain ⟨g'', rfl⟩ : ∃ g'', g' = g'' + 1 := ⟨g' - 1, by omega⟩
            have hE3run : compute_expr s g'' 3 st0 = .ok rhs st23 :=
              (IH n1ac (by omega)).1 .e3 n1ac .nan st0 rhs st23 (le_refl _)
                hE3sub hok0 g'' (by omega)
            have hInv2 := (parser_inv s g'').2.1 3 st0 hok0
            rw [hE3run] at hInv2
            obtain ⟨hok23, hge23⟩ := hInv2
            have hok23l := hok23.1
            have hExit := ref_exit s .e3 n1ac .nan st0 rhs st23 hE3sub
            rw [compute_loop_step_eq s g'' 1 v0 st0 .POWER hP (by decide)
              (by decide)]
            rw [show (if (OperatorMap TokenType.POWER).assoc =
                Associativity.LEFT then (OperatorMap TokenType.POWER).prec + 1
                else (OperatorMap TokenType.POWER).prec) = 3 from rfl]
            rw [hE3run]
            try dsimp only
            simp only [compute_op, hP]
            try dsimp only
            exact (IH (n1b + n2) (by omega)).2 n1b n2 (evPow v0 rhs) st23 v1
              st1 v st' (le_refl _) hL2 hL1 hok23 hExit.1 g'' (by omega)
  refine ⟨SIM1, ?_⟩
  intro n2 n3 v1 st1 v2 st2 v3 st3 hn hL2 hL1 hok1 hnp g hg
  have hok1l : st1.pos ≤ s.length := hok1.1
  cases hL2 with
  | loop2_exit =>
    rename_i h1 h2 h3
    exact SIM1 .loop1 n3 v1 st1 v3 st3 (by omega) hL1 hok1 hnp h1 h2 g hg
  | loop2_mul =>
    rename_i n2a n2b rhs st2m hM hE3 hL2sub
    obtain ⟨g', rfl⟩ : ∃ g', g = g' + 1 := ⟨g - 1, by omega⟩
    have hE3run : compute_expr s g' 3 st1 = .ok rhs st2m :=
      SIM1 .e3 n2a .nan st1 rhs st2m (by omega) hE3 hok1 g' (by omega)
    have hInv := (parser_inv s g').2.1 3 st1 hok1
    rw [hE3run] at hInv
    obtain ⟨hok2m, hge2m⟩ := hInv
    have hok2ml := hok2m.1
    have hExit := ref_exit s .e3 n2a .nan st1 rhs st2m hE3
    rw [compute_loop_step_eq s g' 1 v1 st1 .MULTIPLY hM (by decide)
      (by decide)]
    rw [show (if (OperatorMap TokenType.MULTIPLY).assoc = Associativity.LEFT
        then (OperatorMap TokenType.MULTIPLY).prec + 1
        else (OperatorMap TokenType.MULTIPLY).prec) = 3 from rfl]
    rw [hE3run]
    try dsimp only
    simp only [compute_op, hM]
    try dsimp only
    exact (IH (n2b + n3) (by omega)).2 n2b n3 (evMul v1 rhs) st2m v2 st2 v3
      st3 (le_refl _) hL2sub hL1 hok2m hExit.1 g' (by omega)
  | loop2_div =>
    rename_i n2a n2b rhs st2m hD hE3 hL2sub
    obtain ⟨g', rfl⟩ : ∃ g', g = g' + 1 := ⟨g - 1, by omega⟩
    have hE3run : compute_expr s g' 3 st1 = .ok rhs st2m :=
      SIM1 .e3 n2a .nan st1 rhs st2m (by omega) hE3 hok1 g' (by omega)
    have hInv := (parser_inv s g').2.1 3 st1 hok1
    rw [hE3run] at hInv
    obtain ⟨hok2m, hge2m⟩ := hInv
    have hok2ml := hok2m.1
    have hExit := ref_exit s .e3 n2a .nan st1 rhs st2m hE3
    rw [compute_loop_step_eq s g' 1 v1 st1 .DIVIDE hD (by decide)
      (by decide)]
    rw [show (if (OperatorMap TokenType.DIVIDE).assoc = Associativity.LEFT
        then (OperatorMap TokenType.DIVIDE).prec + 1
        else (OperatorMap TokenType.DIVIDE).prec) = 3 from rfl]
    rw [hE3run]
    try dsimp only
    simp only [compute_op, hD]
    try dsimp only
    exact (IH (n2b + n3) (by omega)).2 n2b n3 (evDiv v1 rhs) st2m v2 st2 v3
      st3 (le_refl _) hL2sub hL1 hok2m hExit.1 g' (by omega)

/-- Whenever the reference grammar derives a value for the whole line
from the initial state, `parse` returns exactly that value. -/
theorem ref_parse (s : List Char) (n : Nat) (a v : EVal) (st' : PState)
    (h : Ref s .e1 n a initState v st') : parse s = .ok v st' :=
  (ref_sim s n).1 .e1 n a initState v st' (le_refl _) h
    ⟨Nat.zero_le _, Nat.zero_le _⟩ (parseFuel s)
    (by simp [parseFuel, initState])

/-! ## Lexing single tokens of a decomposed line -/

theorem charAt_of_drop (s : List Char) (p : Nat) (c : Char) (t : List Char)
    (h : s.drop p = c :: t) : charAt s p = c := by
  have h0 : (s.drop p)[0]? = some c := by
    rw [h]
    simp
  rw [List.getElem?_drop] at h0
  rw [charAt, List.getD_eq_getElem?_getD]
  simp only [Nat.add_zero] at h0
  rw [h0]
  rfl

theorem drop_succ_of_drop (s : List Char) (p : Nat) (c : Char) (t : List Char)
    (h : s.drop p = c :: t) : s.drop (p + 1) = t := by
  rw [← List.drop_drop, h]
  rfl

theorem lt_length_of_drop (s : List Char) (p : Nat) (c : Char) (t : List Char)
    (h : s.drop p = c :: t) : p < s.length := by
  by_contra hc
  rw [List.drop_eq_nil_of_le (Nat.le_of_not_lt hc)] at h
  exact nomatch h

theorem not_ws_of_digit (c : Char) (h : c.isDigit = true) : isWs c = false := by
  rw [isWs]
  have h1 : ¬(c = '\n') := fun hc => by rw [hc] at h; exact nomatch h
  have h2 : ¬(c = '\t') := fun hc => by rw [hc] at h; exact nomatch h
  have h3 : ¬(c = '\x0d') := fun hc => by rw [hc] at h; exact nomatch h
  have h4 : ¬(c = ' ') := fun hc => by rw [hc] at h; exact nomatch h
  simp [h1, h2, h3, h4]

/-- The head of the rest of the line is not a digit (so a digit run ends
there). -/
def headNotDigit : List Char → Prop
  | [] => True
  | c :: _ => c.isDigit = false

theorem scanDigitsAux_append (d r : List Char) :
    ∀ p : Nat, (∀ c ∈ d, c.isDigit = true) → headNotDigit r →
      scanDigitsAux (d ++ r) p = p + d.length := by
  induction d with
  | nil =>
    intro p _ hr
    cases r with
    | nil => simp [scanDigitsAux]
    | cons c t =>
      simp only [List.nil_append, scanDigitsAux, List.length_nil, Nat.add_zero]
      rw [hr]
      rfl
  | cons c d' ih =>
    intro p hd hr
    have hstep : scanDigitsAux ((c :: d') ++ r) p = scanDigitsAux (d' ++ r) (p + 1) := by
      rw [List.cons_append]
      show (if c.isDigit then scanDigitsAux (d' ++ r) (p + 1) else p) = _
      rw [hd c (by simp)]
      rfl
    rw [hstep, ih (p + 1) (fun x hx => hd x (by simp [hx])) hr]
    simp only [List.length_cons]
    omega

/-- Lexing a maximal digit run: the token is the run, the cursor lands
after it. -/
theorem next_token_num (s : List Char) (p : Nat) (d r : List Char)
    (h : s.drop p = d ++ r) (hd : ∀ c ∈ d, c.isDigit = true) (hne : d ≠ [])
    (hr : headNotDigit r) :
    next_token s p = (⟨p, d, .NUMBER⟩, p + d.length) := by
  obtain ⟨c, d', rfl⟩ : ∃ c d', d = c :: d' := by
    cases d with
    | nil => exact absurd rfl hne
    | cons c d' => exact ⟨c, d', rfl⟩
  rw [List.cons_append] at h
  have hplt := lt_length_of_drop s p c (d' ++ r) h
  have hc : charAt s p = c := charAt_of_drop s p c (d' ++ r) h
  have hcd : c.isDigit = true := hd c (by simp)
  have hws : skip_whitespace s p = p := by
    rw [skip_whitespace, h, skipWsAux, not_ws_of_digit c hcd]
    rfl
  have hdrop1 : s.drop (p + 1) = d' ++ r := drop_succ_of_drop s p c (d' ++ r) h
  have hscan : scanDigits s (readNextPos s p) = p + (d'.length + 1) := by
    rw [readNextPos_lt s p hplt, scanDigits, hdrop1,
      scanDigitsAux_append d' r (p + 1) (fun x hx => hd x (by simp [hx])) hr]
    omega
  have hslice : slice s p (p + (d'.length + 1)) = c :: d' := by
    rw [slice, h]
    simp only [Nat.add_sub_cancel_left]
    rw [List.take_succ_cons]
    congr 1
    exact List.take_left ..
  rw [next_token, hws, hc]
  simp only [hcd, if_true, number, hscan, hslice]
  simp only [List.length_cons]

/-- `next_token` depends on the starting position only through the
whitespace-skipped position. -/
theorem next_token_ws_congr (s : List Char) (p q : Nat)
    (h : skip_whitespace s p = skip_whitespace s q) :
    next_token s p = next_token s q := by
  unfold next_token
  rw [h]

/-- Lexing a digit run preceded by one space. -/
theorem next_token_sp_num (s : List Char) (p : Nat) (d r : List Char)
    (h : s.drop p = ' ' :: (d ++ r)) (hd : ∀ c ∈ d, c.isDigit = true)
    (hne : d ≠ []) (hr : headNotDigit r) :
    next_token s p = (⟨p + 1, d, .NUMBER⟩, p + 1 + d.length) := by
  have hdrop1 : s.drop (p + 1) = d ++ r := drop_succ_of_drop s p ' ' _ h
  have hws : skip_whitespace s p = skip_whitespace s (p + 1) := by
    rw [skip_whitespace, skip_whitespace, h, hdrop1]
    show skipWsAux (' ' :: (d ++ r)) p = skipWsAux (d ++ r) (p + 1)
    rw [skipWsAux]
    rfl
  rw [next_token_ws_congr s p (p + 1) hws]
  exact next_token_num s (p + 1) d r hdrop1 hd hne hr

/-- Lexing a `**` power token preceded by one space. -/
theorem next_token_sp_pow (s : List Char) (p : Nat) (r : List Char)
    (h : s.drop p = ' ' :: '*' :: '*' :: ' ' :: r) :
    next_token s p = (⟨p + 1, ['*', '*'], .POWER⟩, p + 3) := by
  have hdrop1 : s.drop (p + 1) = '*' :: '*' :: ' ' :: r :=
    drop_succ_of_drop s p ' ' _ h
  have hdrop2 : s.drop (p + 2) = '*' :: ' ' :: r :=
    drop_succ_of_drop s (p + 1) '*' _ hdrop1
  have hp1 : p + 1 < s.length := lt_length_of_drop s (p + 1) '*' _ hdrop1
  have hp2 : p + 2 < s.length := lt_length_of_drop s (p + 2) '*' _ hdrop2
  have hws : skip_whitespace s p = p + 1 := by
    rw [skip_whitespace, h]
    show skipWsAux (' ' :: '*' :: '*' :: ' ' :: r) p = p + 1
    rw [skipWsAux]
    show skipWsAux ('*' :: '*' :: ' ' :: r) (p + 1) = p + 1
    rw [skipWsAux]
    rfl
  have hc : charAt s (p + 1) = '*' := charAt_of_drop s (p + 1) '*' _ hdrop1
  have hpeek : peek_next s (p + 1) = '*' := by
    rw [peek_next, if_pos hp1]
    exact charAt_of_drop s (p + 2) '*' _ hdrop2
  have hslice : slice s (p + 1) (p + 1 + 2) = ['*', '*'] := by
    rw [slice]
    have he : p + 1 + 2 - (p + 1) = 2 := by omega
    rw [he, hdrop1]
    rfl
  have hnew : readNextPos s (readNextPos s (p + 1)) = p + 3 := by
    rw [readNextPos_lt s (p + 1) hp1]
    rw [readNextPos_lt s (p + 2) hp2]
  rw [next_token, hws, hc]
  simp only [hpeek, hslice, hnew]
  rfl

/-- Lexing at or past the end of the line: the `'\x00'` terminator gives
an `END_OF_FILE` token and the cursor stays. -/
theorem next_token_eof (s : List Char) (p : Nat) (h : s.length ≤ p) :
    next_token s p = (⟨p, ['\x00'], .END_OF_FILE⟩, p) := by
  have hdrop : s.drop p = [] := List.drop_eq_nil_of_le h
  have hws : skip_whitespace s p = p := by
    rw [skip_whitespace, hdrop]
    rfl
  have hc : charAt s p = '\x00' := List.getD_eq_default _ _ h
  have hnew : readNextPos s p = p := by
    rw [readNextPos, if_neg (Nat.not_lt.mpr h)]
  rw [next_token, hws, hc]
  simp only [hnew]
  rfl

theorem drop_add_of_drop (s : List Char) (p : Nat) (d r : List Char)
    (h : s.drop p = d ++ r) : s.drop (p + d.length) = r := by
  rw [← List.drop_drop, h, List.drop_left]

theorem drop_idx (s : List Char) (p q : Nat) (r : List Char)
    (h : s.drop p = r) (hpq : p = q) : s.drop q = r := hpq ▸ h

/-- `Parser::next_token` (the member), characterized by the lexer call it
makes. -/
theorem advance_eq (s : List Char) (st : PState) (tk : Token) (q : Nat)
    (h : next_token s st.pos = (tk, q)) : advance s st = ⟨q, tk⟩ := by
  rw [advance, h]

/-- `parse` on a three-number `**` chain `d1 ** d2 ** d3` (single spaces
around the operators) groups to the right: the result is
`d1 ** (d2 ** d3)`, with the whole line consumed. -/
theorem parse_pow_chain (d1 d2 d3 : List Char)
    (hd1 : ∀ c ∈ d1, c.isDigit = true) (hn1 : d1 ≠ [])
    (hd2 : ∀ c ∈ d2, c.isDigit = true) (hn2 : d2 ≠ [])
    (hd3 : ∀ c ∈ d3, c.isDigit = true) (hn3 : d3 ≠ []) :
    parse (d1 ++ ' ' :: '*' :: '*' :: ' ' :: (d2 ++ ' ' :: '*' :: '*' :: ' ' :: d3)) =
      .ok (evPow (strtod d1) (evPow (strtod d2) (strtod d3)))
        ⟨d1.length + d2.length + d3.length + 8,
         ⟨d1.length + d2.length + d3.length + 8, ['\x00'], .END_OF_FILE⟩⟩ := by
  set s : List Char :=
    d1 ++ ' ' :: '*' :: '*' :: ' ' :: (d2 ++ ' ' :: '*' :: '*' :: ' ' :: d3) with hs
  have hL : s.length = d1.length + d2.length + d3.length + 8 := by
    rw [hs]
    simp only [List.length_append, List.length_cons]
    omega
  have dr0 : s.drop 0 =
      d1 ++ (' ' :: '*' :: '*' :: ' ' :: (d2 ++ ' ' :: '*' :: '*' :: ' ' :: d3)) := by
    rw [hs, List.drop_zero]
  have drA : s.drop d1.length =
      ' ' :: '*' :: '*' :: ' ' :: (d2 ++ ' ' :: '*' :: '*' :: ' ' :: d3) :=
    drop_idx s _ _ _ (drop_add_of_drop s 0 d1 _ dr0) (by omega)
  have t1 : next_token s 0 = (⟨0, d1, .NUMBER⟩, d1.length) := by
    rw [next_token_num s 0 d1 _ dr0 hd1 hn1 rfl]
    simp only [Prod.mk.injEq, Token.mk.injEq, true_and, and_true]
    omega
  have t2 : next_token s d1.length =
      (⟨d1.length + 1, ['*', '*'], .POWER⟩, d1.length + 3) :=
    next_token_sp_pow s d1.length _ drA
  have dr1 : s.drop (d1.length + 1) =
      '*' :: '*' :: ' ' :: (d2 ++ ' ' :: '*' :: '*' :: ' ' :: d3) :=
    drop_succ_of_drop s d1.length ' ' _ drA
  have dr2 : s.drop (d1.length + 2) =
      '*' :: ' ' :: (d2 ++ ' ' :: '*' :: '*' :: ' ' :: d3) :=
    drop_idx s _ _ _ (drop_succ_of_drop s (d1.length + 1) '*' _ dr1) (by omega)
  have dr3 : s.drop (d1.length + 3) =
      ' ' :: (d2 ++ ' ' :: '*' :: '*' :: ' ' :: d3) :=
    drop_idx s _ _ _ (drop_succ_of_drop s (d1.length + 2) '*' _ dr2) (by omega)
  have t3 : next_token s (d1.length + 3) =
      (⟨d1.length + 4, d2, .NUMBER⟩, d1.length + d2.length + 4) := by
    rw [next_token_sp_num s (d1.length + 3) d2 _ dr3 hd2 hn2 rfl]
    simp only [Prod.mk.injEq, Token.mk.injEq, true_and, and_true]
    omega
  have dr4 : s.drop (d1.length + 4) = d2 ++ (' ' :: '*' :: '*' :: ' ' :: d3) :=
    drop_idx s _ _ _ (drop_succ_of_drop s (d1.length + 3) ' ' _ dr3) (by omega)
  have dr5 : s.drop (d1.length + d2.length + 4) = ' ' :: '*' :: '*' :: ' ' :: d3 :=
    drop_idx s _ _ _ (drop_add_of_drop s (d1.length + 4) d2 _ dr4) (by omega)
  have t4 : next_token s (d1.length + d2.length + 4) =
      (⟨d1.length + d2.length + 5, ['*', '*'], .POWER⟩, d1.length + d2.length + 7) := by
    rw [next_token_sp_pow s (d1.length + d2.length + 4) _ dr5]
  have dr6 : s.drop (d1.length + d2.length + 5) = '*' :: '*' :: ' ' :: d3 :=
    drop_idx s _ _ _
      (drop_succ_of_drop s (d1.length + d2.length + 4) ' ' _ dr5) (by omega)
  have dr7 : s.drop (d1.length + d2.length + 6) = '*' :: ' ' :: d3 :=
    drop_idx s _ _ _
      (drop_succ_of_drop s (d1.length + d2.length + 5) '*' _ dr6) (by omega)
  have dr8 : s.drop (d1.length + d2.length + 7) = ' ' :: d3 :=
    drop_idx s _ _ _
      (drop_succ_of_drop s (d1.length + d2.length + 6) '*' _ dr7) (by omega)
  have dr8n : s.drop (d1.length + d2.length + 7) = ' ' :: (d3 ++ []) := by
    rw [List.append_nil]
    exact dr8
  have t5 : next_token s (d1.length + d2.length + 7) =
      (⟨d1.length + d2.length + 8, d3, .NUMBER⟩,
       d1.length + d2.length + d3.length + 8) := by
    rw [next_token_sp_num s (d1.length + d2.length + 7) d3 [] dr8n hd3 hn3 trivial]
    simp only [Prod.mk.injEq, Token.mk.injEq, true_and, and_true]
    omega
  have t6 : next_token s (d1.length + d2.length + d3.length + 8) =
      (⟨d1.length + d2.length + d3.length + 8, ['\x00'], .END_OF_FILE⟩,
       d1.length + d2.length + d3.length + 8) :=
    next_token_eof s _ (by omega)
  have a1 : advance s initState = ⟨d1.length, ⟨0, d1, .NUMBER⟩⟩ :=
    advance_eq s initState _ _ t1
  have a2 : advance s ⟨d1.length, ⟨0, d1, .NUMBER⟩⟩ =
      ⟨d1.length + 3, ⟨d1.length + 1, ['*', '*'], .POWER⟩⟩ :=
    advance_eq s _ _ _ t2
  have a3 : advance s ⟨d1.length + 3, ⟨d1.length + 1, ['*', '*'], .POWER⟩⟩ =
      ⟨d1.length + d2.length + 4, ⟨d1.length + 4, d2, .NUMBER⟩⟩ :=
    advance_eq s _ _ _ t3
  have a4 : advance s ⟨d1.length + d2.length + 4, ⟨d1.length + 4, d2, .NUMBER⟩⟩ =
      ⟨d1.length + d2.length + 7,
       ⟨d1.length + d2.length + 5, ['*', '*'], .POWER⟩⟩ :=
    advance_eq s _ _ _ t4
  have a5 : advance s ⟨d1.length + d2.length + 7,
      ⟨d1.length + d2.length + 5, ['*', '*'], .POWER⟩⟩ =
      ⟨d1.length + d2.length + d3.length + 8,
       ⟨d1.length + d2.length + 8, d3, .NUMBER⟩⟩ :=
    advance_eq s _ _ _ t5
  have a6 : advance s ⟨d1.length + d2.length + d3.length + 8,
      ⟨d1.length + d2.length + 8, d3, .NUMBER⟩⟩ =
      ⟨d1.length + d2.length + d3.length + 8,
       ⟨d1.length + d2.length + d3.length + 8, ['\x00'], .END_OF_FILE⟩⟩ :=
    advance_eq s _ _ _ t6
  have atom1 : Ref s .atom 1 .nan initState (strtod d1)
      ⟨d1.length + 3, ⟨d1.length + 1, ['*', '*'], .POWER⟩⟩ := by
    have h0 := Ref.num (s := s) .nan initState (by rw [a1])
    rw [a1, a2] at h0
    exact h0
  have atom2 : Ref s .atom 1 .nan
      ⟨d1.length + 3, ⟨d1.length + 1, ['*', '*'], .POWER⟩⟩ (strtod d2)
      ⟨d1.length + d2.length + 7,
       ⟨d1.length + d2.length + 5, ['*', '*'], .POWER⟩⟩ := by
    have h0 := Ref.num (s := s) .nan
      ⟨d1.length + 3, ⟨d1.length + 1, ['*', '*'], .POWER⟩⟩ (by rw [a3])
    rw [a3, a4] at h0
    exact h0
  have atom3 : Ref s .atom 1 .nan
      ⟨d1.length + d2.length + 7,
       ⟨d1.length + d2.length + 5, ['*', '*'], .POWER⟩⟩ (strtod d3)
      ⟨d1.length + d2.length + d3.length + 8,
       ⟨d1.length + d2.length + d3.length + 8, ['\x00'], .END_OF_FILE⟩⟩ := by
    have h0 := Ref.num (s := s) .nan
      ⟨d1.length + d2.length + 7,
       ⟨d1.length + d2.length + 5, ['*', '*'], .POWER⟩⟩ (by rw [a5])
    rw [a5, a6] at h0
    exact h0
  set stF : PState :=
    ⟨d1.length + d2.length + d3.length + 8,
     ⟨d1.length + d2.length + d3.length + 8, ['\x00'], .END_OF_FILE⟩⟩ with hstF
  have powF : Ref s .powtail 1 (strtod d3) stF (strtod d3) stF :=
    Ref.pow_exit (strtod d3) stF (fun hc => nomatch hc) (fun hc => nomatch hc)
  have e3c : Ref s .e3 3 .nan
      ⟨d1.length + d2.length + 7,
       ⟨d1.length + d2.length + 5, ['*', '*'], .POWER⟩⟩ (strtod d3) stF :=
    Ref.e3_mk .nan _ _ _ (strtod d3) stF (strtod d3) stF atom3 powF
  have powD : Ref s .powtail 4 (strtod d2)
      ⟨d1.length + d2.length + 7,
       ⟨d1.length + d2.length + 5, ['*', '*'], .POWER⟩⟩
      (evPow (strtod d2) (strtod d3)) stF :=
    Ref.pow_step (strtod d2) _ _ (strtod d3) stF rfl e3c
  have e3b : Ref s .e3 6 .nan
      ⟨d1.length + 3, ⟨d1.length + 1, ['*', '*'], .POWER⟩⟩
      (evPow (strtod d2) (strtod d3)) stF :=
    Ref.e3_mk .nan _ _ _ (strtod d2) _ (evPow (strtod d2) (strtod d3)) stF
      atom2 powD
  have powB : Ref s .powtail 7 (strtod d1)
      ⟨d1.length + 3, ⟨d1.length + 1, ['*', '*'], .POWER⟩⟩
      (evPow (strtod d1) (evPow (strtod d2) (strtod d3))) stF :=
    Ref.pow_step (strtod d1) _ _ (evPow (strtod d2) (strtod d3)) stF rfl e3b
  have e3a : Ref s .e3 9 .nan initState
      (evPow (strtod d1) (evPow (strtod d2) (strtod d3))) stF :=
    Ref.e3_mk .nan initState _ _ (strtod d1) _
      (evPow (strtod d1) (evPow (strtod d2) (strtod d3))) stF atom1 powB
  have lp2 : Ref s .loop2 1 (evPow (strtod d1) (evPow (strtod d2) (strtod d3)))
      stF (evPow (strtod d1) (evPow (strtod d2) (strtod d3))) stF :=
    Ref.loop2_exit _ stF (fun hc => nomatch hc) (fun hc => nomatch hc)
      (fun hc => nomatch hc)
  have e2a : Ref s .e2 11 .nan initState
      (evPow (strtod d1) (evPow (strtod d2) (strtod d3))) stF :=
    Ref.e2_mk .nan initState _ _
      (evPow (strtod d1) (evPow (strtod d2) (strtod d3))) stF
      (evPow (strtod d1) (evPow (strtod d2) (strtod d3))) stF e3a lp2
  have lp1 : Ref s .loop1 1 (evPow (strtod d1) (evPow (strtod d2) (strtod d3)))
      stF (evPow (strtod d1) (evPow (strtod d2) (strtod d3))) stF :=
    Ref.loop1_exit _ stF (fun hc => nomatch hc) (fun hc => nomatch hc)
      (fun hc => nomatch hc)
  have e1a : Ref s .e1 13 .nan initState
      (evPow (strtod d1) (evPow (strtod d2) (strtod d3))) stF :=
    Ref.e1_mk .nan initState _ _
      (evPow (strtod d1) (evPow (strtod d2) (strtod d3))) stF
      (evPow (strtod d1) (evPow (strtod d2) (strtod d3))) stF e2a lp1
  exact ref_parse s 13 .nan
    (evPow (strtod d1) (evPow (strtod d2) (strtod d3))) stF e1a

/-! ## Claims C1 and C2 -/

/-- C1: for every expression derivable by the reference precedence
grammar (binary `+ - * / **` and parentheses, stratified by the table
precedences Add/Subtract 1, Multiply/Divide 2, Power 3, with
left-to-right grouping at the two left-associative levels), `parse`
returns exactly the grammar's value; the operator table holds those
precedences and associativities; and the three quoted examples evaluate
to 3, 14 and 20. -/
theorem claim_C1 :
    (∀ (s : List Char) (n : Nat) (a v : EVal) (st' : PState),
        Ref s .e1 n a initState v st' → parse s = .ok v st') ∧
    OperatorMap .ADD = ⟨1, .LEFT⟩ ∧
    OperatorMap .SUBTRACT = ⟨1, .LEFT⟩ ∧
    OperatorMap .MULTIPLY = ⟨2, .LEFT⟩ ∧
    OperatorMap .DIVIDE = ⟨2, .LEFT⟩ ∧
    OperatorMap .POWER = ⟨3, .RIGHT⟩ ∧
    parse "8 - 3 - 2".toList = .ok (.finite 3) ⟨9, ⟨9, ['\x00'], .END_OF_FILE⟩⟩ ∧
    parse "2 + 3 * 4".toList = .ok (.finite 14) ⟨9, ⟨9, ['\x00'], .END_OF_FILE⟩⟩ ∧
    parse "(2 + 3) * 4".toList =
      .ok (.finite 20) ⟨11, ⟨11, ['\x00'], .END_OF_FILE⟩⟩ :=
  ⟨fun s n a v st' h => ref_parse s n a v st' h, rfl, rfl, rfl, rfl, rfl,
    by decide, by decide, by decide⟩

/-- Witness for C1: the reference derivation of the one-number line `1`
is followed by `parse`. -/
theorem claim_C1_witness :
    parse "1".toList = .ok (.finite 1) ⟨1, ⟨1, ['\x00'], .END_OF_FILE⟩⟩ :=
  claim_C1.1 "1".toList 7 .nan (.finite 1) ⟨1, ⟨1, ['\x00'], .END_OF_FILE⟩⟩
    (Ref.e1_mk .nan initState 5 1 (.finite 1) ⟨1, ⟨1, ['\x00'], .END_OF_FILE⟩⟩
      (.finite 1) ⟨1, ⟨1, ['\x00'], .END_OF_FILE⟩⟩
      (Ref.e2_mk .nan initState 3 1 (.finite 1)
        ⟨1, ⟨1, ['\x00'], .END_OF_FILE⟩⟩ (.finite 1)
        ⟨1, ⟨1, ['\x00'], .END_OF_FILE⟩⟩
        (Ref.e3_mk .nan initState 1 1 (.finite 1)
          ⟨1, ⟨1, ['\x00'], .END_OF_FILE⟩⟩ (.finite 1)
          ⟨1, ⟨1, ['\x00'], .END_OF_FILE⟩⟩
          (Ref.num .nan initState (by decide))
          (Ref.pow_exit (.finite 1) ⟨1, ⟨1, ['\x00'], .END_OF_FILE⟩⟩
            (by decide) (by decide)))
        (Ref.loop2_exit (.finite 1) ⟨1, ⟨1, ['\x00'], .END_OF_FILE⟩⟩
          (by decide) (by decide) (by decide)))
      (Ref.loop1_exit (.finite 1) ⟨1, ⟨1, ['\x00'], .END_OF_FILE⟩⟩
        (by decide) (by decide) (by decide)))

/-- C2: the table marks `**` right-associative; the climbing loop's
bumped minimum precedence is therefore unchanged for `**`; every chain
`d1 ** d2 ** d3` of digit runs groups to the right as
`d1 ** (d2 ** d3)`; and `2 ** 3 ** 2` evaluates to 512, not 64. -/
theorem claim_C2 :
    (OperatorMap .POWER).assoc = .RIGHT ∧
    ((if (OperatorMap .POWER).assoc = .LEFT then (OperatorMap .POWER).prec + 1
        else (OperatorMap .POWER).prec) = (OperatorMap .POWER).prec) ∧
    (∀ d1 d2 d3 : List Char,
        (∀ c ∈ d1, c.isDigit = true) → d1 ≠ [] →
        (∀ c ∈ d2, c.isDigit = true) → d2 ≠ [] →
        (∀ c ∈ d3, c.isDigit = true) → d3 ≠ [] →
        parse (d1 ++ ' ' :: '*' :: '*' :: ' ' ::
            (d2 ++ ' ' :: '*' :: '*' :: ' ' :: d3)) =
          .ok (evPow (strtod d1) (evPow (strtod d2) (strtod d3)))
            ⟨d1.length + d2.length + d3.length + 8,
             ⟨d1.length + d2.length + d3.length + 8, ['\x00'],
              .END_OF_FILE⟩⟩) ∧
    parse "2 ** 3 ** 2".toList =
      .ok (.finite 512) ⟨11, ⟨11, ['\x00'], .END_OF_FILE⟩⟩ ∧
    (∀ st : PState, parse "2 ** 3 ** 2".toList ≠ .ok (.finite 64) st) :=
  ⟨rfl, rfl,
    fun d1 d2 d3 h1 h2 h3 h4 h5 h6 => parse_pow_chain d1 d2 d3 h1 h2 h3 h4 h5 h6,
    by decide,
    fun st h => by
      have h512 : parse "2 ** 3 ** 2".toList =
          .ok (.finite 512) ⟨11, ⟨11, ['\x00'], .END_OF_FILE⟩⟩ := by decide
      rw [h512] at h
      injection h with hv hst
      exact absurd hv (by decide)⟩

/-- Witness for C2: the general right-association conjunct applied to the
concrete chain `4 ** 2 ** 2`, which gives `4 ** (2 ** 2) = 256`. -/
theorem claim_C2_witness :
    parse "4 ** 2 ** 2".toList =
      .ok (.finite 256) ⟨11, ⟨11, ['\x00'], .END_OF_FILE⟩⟩ :=
  claim_C2.2.2.1 ['4'] ['2'] ['2']
    (by decide) (by decide) (by decide) (by decide) (by decide) (by decide)

/-! ## Claims C3, C4, C7, C8 -/

/-- **C3** (amended): `parse` returns as soon as the top-level expression
is parsed — it is exactly `compute_expr` at minimum precedence 1 with no
end-of-input check afterwards — and leftover tokens are silently ignored
(`"1 + 2 )"` → `3` with the `)` still in the lookahead, `"1 2"` → `1`),
with one exception the original claim misses: the climb loop raises
`UnknownOperator` when the leftover token is an illegal character, while
every other leftover lookahead ends the loop without error. -/
theorem claim_C3 :
    (∀ s : List Char, parse s = compute_expr s (parseFuel s) 1 initState) ∧
    parse "1 + 2 )".toList = .ok (.finite 3) ⟨7, ⟨6, [')'], .RIGHT_PAREN⟩⟩ ∧
    parse "1 2".toList = .ok (.finite 1) ⟨3, ⟨2, ['2'], .NUMBER⟩⟩ ∧
    (∀ (s : List Char) (fuel minPrec : Nat) (lhs : EVal) (st : PState),
      st.tok.type = .NUMBER ∨ st.tok.type = .LEFT_PAREN ∨
        st.tok.type = .RIGHT_PAREN ∨ st.tok.type = .END_OF_FILE →
      compute_loop s (fuel + 1) minPrec lhs st = .ok lhs st) ∧
    (∀ (s : List Char) (fuel minPrec : Nat) (lhs : EVal) (st : PState),
      st.tok.type = .ILLEGAL_CHARACTER →
      compute_loop s (fuel + 1) minPrec lhs st = .err .UnknownOperator st.tok) :=
  ⟨fun _ => rfl, by decide, by decide, compute_loop_exit, compute_loop_illegal⟩

/-- Witness for C3 at concrete inputs. -/
theorem claim_C3_witness :
    compute_loop [] 1 1 (.finite 7) ⟨0, ⟨0, [')'], .RIGHT_PAREN⟩⟩ =
      .ok (.finite 7) ⟨0, ⟨0, [')'], .RIGHT_PAREN⟩⟩ :=
  claim_C3.2.2.2.1 [] 0 1 (.finite 7) ⟨0, ⟨0, [')'], .RIGHT_PAREN⟩⟩
    (Or.inr (Or.inr (Or.inl rfl)))

/-- **C3, counterexample to the original claim**: `"1 @"` is a valid
expression (`"1"`, which parses to `1`) followed by a leftover token, yet
`parse` raises `UnknownOperator` instead of returning `1`. -/
theorem claim_C3_counterexample :
    parse "1".toList = .ok (.finite 1) ⟨1, ⟨1, ['\x00'], .END_OF_FILE⟩⟩ ∧
    parse "1 @".toList = .err .UnknownOperator ⟨2, ['@'], .ILLEGAL_CHARACTER⟩ :=
  ⟨by decide, by decide⟩

/-- **C4**: malformed input raises exactly the specified error kind, and
aborts with an error rather than a value: `"(1 + 2"` → `UnmatchedParen`,
`"1 + "` → `UnexpectedEndOfExpression`, `"@"` → `UnexpectedToken`. -/
theorem claim_C4 :
    parse "(1 + 2".toList = .err .UnmatchedParen ⟨6, ['\x00'], .END_OF_FILE⟩ ∧
    parse "1 + ".toList = .err .UnexpectedEndOfExpression ⟨4, ['\x00'], .END_OF_FILE⟩ ∧
    parse "@".toList = .err .UnexpectedToken ⟨0, ['@'], .ILLEGAL_CHARACTER⟩ :=
  ⟨by decide, by decide, by decide⟩

/-- **C7** (amended): the evaluator does **not** accept a unary sign: on
every line whose first non-blank character starts a `-` token, the parse
aborts with `UnexpectedToken` at the `-`.  Negation must be written via
binary subtraction, e.g. `"0 - 5"` → `-5`. -/
theorem claim_C7 :
    (∀ rest : List Char,
      parse ('-' :: rest) = .err .UnexpectedToken ⟨0, ['-'], .SUBTRACT⟩) ∧
    parse "0 - 5".toList = .ok (.finite (-5)) ⟨5, ⟨5, ['\x00'], .END_OF_FILE⟩⟩ :=
  ⟨parse_cons_minus, by decide⟩

/-- **C7, counterexample to the original claim**: `parse "-5"` raises
`UnexpectedToken` instead of evaluating to `-5`. -/
theorem claim_C7_counterexample :
    parse "-5".toList = .err .UnexpectedToken ⟨0, ['-'], .SUBTRACT⟩ := by
  decide

/-- **C8**: division is never special-cased — `compute_op` on a `DIVIDE`
token always returns the IEEE quotient, never an error — and a finite
value divided by zero follows the IEEE convention: positive over zero is
`+inf`, negative over zero is `-inf`, `0 / 0` is `nan`; in particular
`parse "1 / 0"` succeeds and yields `+inf`. -/
theorem claim_C8 :
    (∀ (t : Token) (lhs rhs : EVal), t.type = .DIVIDE →
      compute_op t lhs rhs = some (evDiv lhs rhs)) ∧
    (∀ a : ℚ, 0 < a → evDiv (.finite a) (.finite 0) = .pinf) ∧
    (∀ a : ℚ, a < 0 → evDiv (.finite a) (.finite 0) = .ninf) ∧
    evDiv (.finite 0) (.finite 0) = .nan ∧
    parse "1 / 0".toList = .ok .pinf ⟨5, ⟨5, ['\x00'], .END_OF_FILE⟩⟩ := by
  refine ⟨?_, ?_, ?_, by decide, by decide⟩
  · intro t lhs rhs ht
    simp [compute_op, ht]
  · intro a ha
    simp [evDiv, ha, ha.ne']
  · intro a ha
    simp [evDiv, ha.ne, not_lt_of_gt ha]

/-- Witness for C8 at concrete inputs. -/
theorem claim_C8_witness :
    compute_op ⟨2, ['/'], .DIVIDE⟩ (.finite 1) (.finite 0) =
      some (evDiv (.finite 1) (.finite 0)) ∧
    evDiv (.finite 1) (.finite 0) = .pinf :=
  ⟨claim_C8.1 ⟨2, ['/'], .DIVIDE⟩ (.finite 1) (.finite 0) rfl,
   claim_C8.2.1 1 one_pos⟩

/-! ## Claims C5, C6, C9, C10 -/

/-- **C5** (amended): on every error raised on a well-formed line — a
nonempty line without newline or NUL bytes, of `size_t` length — the
rendered error location places the caret at the column equal to the
zero-based byte offset, within the line, of the first character of the
current lookahead token: the caret line is exactly `tok.pos` spaces
followed by `^`. -/
theorem claim_C5 :
    ∀ (s : List Char) (e : ErrKind) (tok : Token), '\n' ∉ s → '\x00' ∉ s →
      s ≠ [] → s.length < 18446744073709551616 → parse s = .err e tok →
      ∃ line, show_error_location s tok.pos =
        some (line ++ '\n' :: (List.replicate tok.pos ' ' ++ ['^'])) := by
  intro s e tok hn h0 hne hlen herr
  exact ⟨_, show_error_location_eq s tok.pos hn h0 hne
    (parse_err_tok_le s e tok herr) hlen⟩

/-- Witness for C5 at the concrete failing input `"@"`. -/
theorem claim_C5_witness :
    ∃ line, show_error_location "@".toList 0 =
      some (line ++ '\n' :: (List.replicate 0 ' ' ++ ['^'])) :=
  claim_C5 "@".toList .UnexpectedToken ⟨0, ['@'], .ILLEGAL_CHARACTER⟩
    (by decide) (by decide) (by decide) (by decide) (by decide)

/-- **C5, counterexample to the original claim**: the empty line makes
`parse` raise an error, but rendering its location makes the C code read
past the end of the empty string's buffer (start-of-line is bumped past
the terminator), so no caret is produced at all for this failing input. -/
theorem claim_C5_counterexample :
    parse [] = .err .UnexpectedEndOfExpression ⟨0, ['\x00'], .END_OF_FILE⟩ ∧
    show_error_location [] 0 = none ∧ errorText [] = none :=
  ⟨by decide, by decide, by decide⟩

/-- **C6** (amended): on every error raised on a well-formed line the
error text handed to the shell is the error-message line **first**,
directly followed by the offending source line reproduced verbatim up to
the first line boundary (a trailing carriage return is trimmed), a
newline, and a line of spaces with a single caret at the error column;
nothing follows the caret — the original claim has the message at the
wrong end. -/
theorem claim_C6 :
    ∀ (s : List Char) (e : ErrKind) (tok : Token), '\n' ∉ s → '\x00' ∉ s →
      s ≠ [] → s.length < 18446744073709551616 → parse s = .err e tok →
      errorText s = some (errMessage e ++
        (s.take (if charAt s (s.length - 1) = '\r' then s.length - 1 else s.length) ++
          '\n' :: (List.replicate tok.pos ' ' ++ ['^']))) := by
  intro s e tok hn h0 hne hlen herr
  rw [errorText, herr]
  dsimp only [report_error]
  rw [show_error_location_eq s tok.pos hn h0 hne (parse_err_tok_le s e tok herr) hlen]
  rfl

/-- Witness for C6 at the concrete failing input `"@"`. -/
theorem claim_C6_witness :
    errorText "@".toList = some (errMessage .UnexpectedToken ++
      ("@".toList.take (if charAt "@".toList ("@".toList.length - 1) = '\r'
          then "@".toList.length - 1 else "@".toList.length) ++
        '\n' :: (List.replicate 0 ' ' ++ ['^']))) :=
  claim_C6 "@".toList .UnexpectedToken ⟨0, ['@'], .ILLEGAL_CHARACTER⟩
    (by decide) (by decide) (by decide) (by decide) (by decide)

/-- **C6, counterexample to the original claim**: for the failing input
`"@"` the actual error text starts with the message and ends with the
caret; it is not the claimed "source line, then caret line, then
message". -/
theorem claim_C6_counterexample :
    errorText "@".toList = some "Unexpected character: \n@\n^".toList ∧
    errorText "@".toList ≠ some "@\n^Unexpected character: \n".toList :=
  ⟨by decide, by decide⟩

/-- **C9**: evaluation of every finite line terminates: the lexer's
cursor never decreases and stays bounded by the line length, every token
other than `END_OF_FILE` advances it by at least one byte, and `parse` —
whose recursion is fuelled linearly in the line length — always returns a
value or an error, never hitting the fuel bound. -/
theorem claim_C9 :
    (∀ (s : List Char) (pos : Nat), pos ≤ s.length →
      pos ≤ (next_token s pos).2 ∧ (next_token s pos).2 ≤ s.length) ∧
    (∀ (s : List Char) (pos : Nat),
      (next_token s pos).1.type ≠ .END_OF_FILE → pos + 1 ≤ (next_token s pos).2) ∧
    (∀ s : List Char, parse s ≠ .fuelout) :=
  ⟨fun s pos hp => ⟨next_token_pos_ge s pos, next_token_pos_le s pos hp⟩,
   next_token_progress, parse_not_fuelout⟩

/-- Witness for C9 at a concrete input. -/
theorem claim_C9_witness :
    (0 ≤ (next_token "1".toList 0).2 ∧
      (next_token "1".toList 0).2 ≤ "1".toList.length) ∧
    0 + 1 ≤ (next_token "1".toList 0).2 ∧ parse "1".toList ≠ .fuelout :=
  ⟨claim_C9.1 "1".toList 0 (by decide),
   claim_C9.2.1 "1".toList 0 (by decide),
   claim_C9.2.2 "1".toList⟩

/-- **C10**: on every *nonempty* well-formed line every read of the
error-location renderer stays inside the bounds of the line's buffer (the
rendering succeeds), but on the **empty line** — for which `parse` does
raise an error — the renderer increments `start_of_line` past the
terminator of the empty string and the end-of-line scan reads out of
bounds, so the claim's "including the empty line" fails on the code. -/
theorem claim_C10 :
    (∀ (s : List Char) (tokPos : Nat), '\n' ∉ s → '\x00' ∉ s → s ≠ [] →
      tokPos ≤ s.length → s.length < 18446744073709551616 →
      (show_error_location s tokPos).isSome) ∧
    parse [] = .err .UnexpectedEndOfExpression ⟨0, ['\x00'], .END_OF_FILE⟩ ∧
    show_error_location [] 0 = none := by
  refine ⟨?_, by decide, by decide⟩
  intro s tokPos hn h0 hne hp hlen
  rw [show_error_location_eq s tokPos hn h0 hne hp hlen]
  rfl

/-- Witness for C10 at the concrete input `"@"`. -/
theorem claim_C10_witness :
    (show_error_location "@".toList 0).isSome :=
  claim_C10.1 "@".toList 0 (by decide) (by decide) (by decide) (by decide)
    (by decide)

end PC
